import Mathlib

/-!
# giq: the interactive control layer, embedded in Lean

A shallow embedding of the Go sources of `giq` (`main.go`, `internal/ai/ai.go`,
`internal/app/app.go`, `internal/cmd/*.go`) and theorems about it.

Conventions of the embedding

* A Go `string` is a Lean `String` (a sequence of Unicode code points); byte strings
  that are not valid UTF-8 are outside the model.
* A Go `error` is the text of its `Error()` method; `nil` is `none`.
* Code that has effects returns, next to its result, the ordered list of the effects it
  performed (`Effect`), so that "the backend is not called" is a statement about a list.
* Libraries the repository calls but does not contain (`strings.ToLower`, the OpenAI
  client, the text-input widget, the external `git`, the keyboard) are parameters.
-/

namespace Giq

/-! ## Go `strings` helpers -/

/-- Go `unicode.IsSpace`: the code points with the Unicode White_Space property. -/
def isSpace (c : Char) : Bool :=
  let n := c.toNat
  n == 0x09 || n == 0x0A || n == 0x0B || n == 0x0C || n == 0x0D || n == 0x20 ||
  n == 0x85 || n == 0xA0 || n == 0x1680 || (0x2000 ≤ n && n ≤ 0x200A) ||
  n == 0x2028 || n == 0x2029 || n == 0x202F || n == 0x205F || n == 0x3000

/-- Go `strings.TrimSpace` on the code points of a string. -/
def trimSpaceChars (l : List Char) : List Char :=
  (l.dropWhile isSpace).rdropWhile isSpace

/-- Go `strings.TrimSpace`. -/
def TrimSpace (s : String) : String :=
  ⟨trimSpaceChars s.data⟩

/-- Go `strings.Contains` on code points: `sub` occurs as a contiguous block of `l`. -/
def containsChars (l sub : List Char) : Bool :=
  l.tails.any (fun t => sub.isPrefixOf t)

/-- Go `strings.Contains`. -/
def Contains (s sub : String) : Bool :=
  containsChars s.data sub.data

/-- Go `strings.Join`. -/
def Join (elems : List String) (sep : String) : String :=
  sep.intercalate elems

/-! ## `internal/config`: the configuration record -/

/-- The struct `config.Config`. -/
structure Config where
  AIProvider : String
  AIKey : String
  AzureEndpoint : String
  AzureDeploymentID : String
  AzureAPIKey : String
  AzureAPIVersion : String
  deriving DecidableEq, Repr

/-! ## `internal/ai`: the suggestion provider -/

/-- The client the provider builds before the call: `openai.NewClient(key)` or
`openai.NewClientWithConfig(DefaultAzureConfig(apiKey, endpoint))` together with the
deployment its model mapper yields for the requested model. -/
inductive Client where
  | openai (key : String)
  | azure (apiKey endpoint deployment : String)
  deriving DecidableEq, Repr

/-- The fields of `openai.ChatCompletionRequest` the code sets; `Content` is the text of
the single user-role message. -/
structure ChatCompletionRequest where
  Model : String
  Content : String
  Temperature : Rat
  MaxTokens : Nat
  N : Nat
  deriving DecidableEq, Repr

/-- The backend: `client.CreateChatCompletion`, returning either an error text or the
message contents of `resp.Choices`, in order. -/
abbrev Backend := Client → ChatCompletionRequest → Except String (List String)

/-- What a provider call did and returned: the backend calls made, in order, and the
Go result pair `([]string, error)`. -/
structure ProviderResult where
  calls : List (Client × ChatCompletionRequest)
  result : Except String (List String)

/-- The constant `openai.GPT3Dot5Turbo`. -/
def GPT3Dot5Turbo : String := "gpt-3.5-turbo"

/-- The constant `openai.GPT4o`. -/
def GPT4o : String := "gpt-4o"

/-- The closure `azureConfig.AzureModelMapperFunc` of `generateCommitMessagesAzure`: a
one-entry map from `openai.GPT4o` to the configured deployment, with Go's zero value
for a missing key. -/
def azureModelMapperFunc (cfg : Config) (model : String) : String :=
  if model = GPT4o then cfg.AzureDeploymentID else ""

/-- The request literal of `generateCommitMessagesOpenAI` (ai.go:42-48). -/
def openAIRequest (prompt : String) : ChatCompletionRequest :=
  { Model := GPT3Dot5Turbo, Content := prompt, Temperature := 1 / 2, MaxTokens := 64, N := 3 }

/-- The request literal of `generateCommitMessagesAzure` (ai.go:86-92). -/
def azureRequest (prompt : String) : ChatCompletionRequest :=
  { Model := GPT4o, Content := prompt, Temperature := 1 / 2, MaxTokens := 64, N := 3 }

/-- The function `generateCommitMessagesOpenAI` (ai.go:36-67). -/
def generateCommitMessagesOpenAI (api : Backend) (cfg : Config) (prompt : String) :
    ProviderResult :=
  if cfg.AIKey = "" then
    ⟨[], .error "OpenAI API key is not configured"⟩
  else
    let client := Client.openai cfg.AIKey
    let req := openAIRequest prompt
    match api client req with
    | .error e => ⟨[(client, req)], .error ("OpenAI API error: " ++ e)⟩
    | .ok choices =>
      if choices.length = 0 then
        ⟨[(client, req)], .error "no completions returned from OpenAI"⟩
      else
        ⟨[(client, req)], .ok (choices.map TrimSpace)⟩

/-- The function `generateCommitMessagesAzure` (ai.go:69-109). -/
def generateCommitMessagesAzure (api : Backend) (cfg : Config) (prompt : String) :
    ProviderResult :=
  if cfg.AzureAPIKey = "" ∨ cfg.AzureEndpoint = "" ∨ cfg.AzureDeploymentID = "" ∨
      cfg.AzureAPIVersion = "" then
    ⟨[], .error "Azure OpenAI configuration is incomplete"⟩
  else
    let client :=
      Client.azure cfg.AzureAPIKey cfg.AzureEndpoint (azureModelMapperFunc cfg GPT4o)
    let req := azureRequest prompt
    match api client req with
    | .error e => ⟨[(client, req)], .error ("Azure OpenAI API error: " ++ e)⟩
    | .ok choices =>
      if choices.length = 0 then
        ⟨[(client, req)], .error "no completions returned from Azure OpenAI"⟩
      else
        ⟨[(client, req)], .ok (choices.map TrimSpace)⟩

/-- The function `GenerateCommitMessages` (ai.go:29-34). `ToLower` is Go's
`strings.ToLower`. -/
def GenerateCommitMessages (ToLower : String → String) (api : Backend) (cfg : Config)
    (prompt : String) : ProviderResult :=
  if ToLower cfg.AIProvider = "azure_openai" then
    generateCommitMessagesAzure api cfg prompt
  else
    generateCommitMessagesOpenAI api cfg prompt

/-- The provider selected by a configuration, in the words of the specification: the
Azure-style backend exactly when the lower-cased `ai_provider` is `azure_openai`. -/
def selectsAzure (ToLower : String → String) (cfg : Config) : Prop :=
  ToLower cfg.AIProvider = "azure_openai"

/-- Some field required by the selected provider is empty: all four Azure fields for
the Azure-style backend, the API key alone for the default backend. -/
def missingRequiredField (ToLower : String → String) (cfg : Config) : Prop :=
  (selectsAzure ToLower cfg ∧
      (cfg.AzureEndpoint = "" ∨ cfg.AzureDeploymentID = "" ∨ cfg.AzureAPIKey = "" ∨
        cfg.AzureAPIVersion = "")) ∨
    (¬ selectsAzure ToLower cfg ∧ cfg.AIKey = "")

instance (ToLower : String → String) (cfg : Config) : Decidable (selectsAzure ToLower cfg) := by
  unfold selectsAzure
  infer_instance

instance (ToLower : String → String) (cfg : Config) :
    Decidable (missingRequiredField ToLower cfg) := by
  unfold missingRequiredField
  infer_instance

/-- The two texts the provider reports for an incomplete configuration. -/
def isConfigurationError (e : String) : Prop :=
  e = "OpenAI API key is not configured" ∨ e = "Azure OpenAI configuration is incomplete"

/-- A text `t` is `s` with its leading and trailing whitespace removed: `s` is `t`
between two runs of whitespace, and `t` neither starts nor ends with whitespace. -/
def IsTrimOf (t s : String) : Prop :=
  ∃ pre suf : List Char, s.data = pre ++ t.data ++ suf ∧
    (∀ c ∈ pre, isSpace c = true) ∧ (∀ c ∈ suf, isSpace c = true) ∧
    (∀ c ∈ t.data.head?, isSpace c = false) ∧ (∀ c ∈ t.data.getLast?, isSpace c = false)

/-! ## Bubble Tea programs -/

/-- A `tea.Msg`: a key press, carrying the text of `msg.String()`, or any other message
(window size, blink, ...). -/
inductive Msg where
  | key (s : String)
  | other
  deriving DecidableEq, Repr

/-- A `tea.Cmd` as far as the event loop tells them apart: `nil`, `tea.Quit`, or some
other command. -/
inductive Cmd where
  | nil
  | Quit
  | other
  deriving DecidableEq, Repr

/-- The models reached when `Update` is applied to every message of a sequence. -/
def feed {M : Type} (update : M → Msg → M × Cmd) : M → List Msg → M
  | m, [] => m
  | m, msg :: rest => feed update (update m msg).1 rest

/-- The steps of applying a sequence of messages: each message with the model it is
applied to. -/
def feedSteps {M : Type} (update : M → Msg → M × Cmd) : M → List Msg → List (M × Msg)
  | _, [] => []
  | m, msg :: rest => (m, msg) :: feedSteps update (update m msg).1 rest

/-- The messages `p.Run()` applies. A `tea.Quit` returned by `Update` does not end the
loop at once: it puts a quit message in the queue, behind the messages that were already
read. So the loop applies every message up to and including the first one whose `Update`
returns `tea.Quit`, and then `ahead` more, those read before the quit message is
handled. When the messages end before any `tea.Quit` (the loop is ended from outside),
all of them are applied. -/
def applied {M : Type} (update : M → Msg → M × Cmd) (ahead : Nat) :
    M → List Msg → List Msg
  | _, [] => []
  | m, msg :: rest =>
    match update m msg with
    | (_, .Quit) => msg :: rest.take ahead
    | (m1, _) => msg :: applied update ahead m1 rest

/-- The model `p.Run()` returns for a program whose `View` cannot fail: the model after
the messages the loop applies, `ahead` of them behind the first `tea.Quit`. -/
def runProgram {M : Type} (update : M → Msg → M × Cmd) (ahead : Nat) (m : M)
    (msgs : List Msg) : M :=
  feed update m (applied update ahead m msgs)

/-- The loop of `p.Run()` over the messages it applies, for a program whose `View` can
panic: after every `Update` the new model is rendered, and a panic in `View` ends the run
without a model (`none`). -/
def renderAll {M β : Type} (update : M → Msg → M × Cmd) (view : M → Option β) :
    M → List Msg → Option M
  | m, [] => some m
  | m, msg :: rest =>
    match view (update m msg).1 with
    | none => none
    | some _ => renderAll update view (update m msg).1 rest

/-- The call `p.Run()` on the initial model `init`. `events` is what the program meets:
an error of the program itself, or the messages delivered to it. The initial model is
rendered, then each applied message is followed by a rendering; when `View` panics the
program is killed and `p.Run()` returns an error, whose text `panicText` belongs to the
library. -/
def teaRun {M β : Type} (update : M → Msg → M × Cmd) (view : M → Option β)
    (panicText : String) (ahead : Nat) (init : M) (events : Except String (List Msg)) :
    Except String M :=
  match events with
  | .error e => .error e
  | .ok msgs =>
    match view init with
    | none => .error panicText
    | some _ =>
      match renderAll update view init (applied update ahead init msgs) with
      | none => .error panicText
      | some m => .ok m

/-! ## `internal/cmd/commit.go`: the two selection models -/

/-- The struct `fallbackModel`. -/
structure fallbackModel where
  cursor : Int
  options : List String
  selected : Int
  deriving DecidableEq, Repr

/-- The function `initialFallbackModel`. -/
def initialFallbackModel : fallbackModel :=
  { cursor := 0
    options := ["Write custom commit message", "Setup AI configuration"]
    selected := -1 }

/-- The method `fallbackModel.Update` (commit.go:37-57). -/
def fallbackModel.Update (m : fallbackModel) (msg : Msg) : fallbackModel × Cmd :=
  match msg with
  | .key s =>
    if s = "up" ∨ s = "k" then
      if m.cursor > 0 then ({ m with cursor := m.cursor - 1 }, .nil) else (m, .nil)
    else if s = "down" ∨ s = "j" then
      if m.cursor < (m.options.length : Int) - 1 then
        ({ m with cursor := m.cursor + 1 }, .nil)
      else (m, .nil)
    else if s = "enter" then
      ({ m with selected := m.cursor }, .Quit)
    else if s = "q" ∨ s = "ctrl+c" then
      (m, .Quit)
    else (m, .nil)
  | .other => (m, .nil)

/-- The struct `commitModel`. -/
structure commitModel where
  choices : List String
  cursor : Int
  selected : Int
  deriving DecidableEq, Repr

/-- The function `initialCommitModel`. -/
def initialCommitModel (choices : List String) : commitModel :=
  { choices := choices, cursor := 0, selected := -1 }

/-- The method `commitModel.Update` (commit.go:130-150). -/
def commitModel.Update (m : commitModel) (msg : Msg) : commitModel × Cmd :=
  match msg with
  | .key s =>
    if s = "up" ∨ s = "k" then
      if m.cursor > 0 then ({ m with cursor := m.cursor - 1 }, .nil) else (m, .nil)
    else if s = "down" ∨ s = "j" then
      if m.cursor < (m.choices.length : Int) - 1 then
        ({ m with cursor := m.cursor + 1 }, .nil)
      else (m, .nil)
    else if s = "enter" then
      ({ m with selected := m.cursor }, .Quit)
    else if s = "q" ∨ s = "ctrl+c" then
      (m, .Quit)
    else (m, .nil)
  | .other => (m, .nil)

/-! ## `internal/cmd/setup_wizard.go`: the credential wizard -/

/-- The type `setupStep`. -/
inductive setupStep where
  | stepProviderSelection
  | stepInputCredential
  | stepConfirm
  | stepDone
  deriving DecidableEq, Repr

/-- The state of the `textinput.Model` widget the wizard touches: the text buffer, the
cursor position in it, the placeholder, the width and the focus flag. -/
structure textinputModel where
  value : String
  pos : Nat
  Placeholder : String
  Width : Nat
  focus : Bool
  deriving DecidableEq, Repr

/-- The widget's own `Update`: how a message edits the buffer. It belongs to the
`bubbles` library and is a parameter of the wizard. -/
abbrev InputUpdate := textinputModel → Msg → textinputModel × Cmd

/-- The method `textinput.Model.SetValue`, which the wizard only calls with `""`. -/
def textinputModel.SetValue (t : textinputModel) (s : String) : textinputModel :=
  { t with value := s, pos := s.length }

/-- A Go `map[string]string` as a list of entries with distinct keys. -/
abbrev StringMap := List (String × String)

/-- A map read `m[k]`, with Go's zero value `""` for a missing key. -/
def mapGet (m : StringMap) (k : String) : String :=
  (m.lookup k).getD ""

/-- A map write `m[k] = v`. -/
def mapSet (m : StringMap) (k v : String) : StringMap :=
  (k, v) :: m.filter (fun p => p.1 ≠ k)

/-- The struct `setupModel`. -/
structure setupModel where
  step : setupStep
  provider : String
  currentField : String
  fieldIndex : Nat
  input : textinputModel
  answers : StringMap
  done : Bool
  err : Option String
  deriving DecidableEq, Repr

/-- The function `getFieldsForProvider` (setup_wizard.go:32-42). -/
def getFieldsForProvider (provider : String) : List String :=
  if provider = "openai" then
    ["OpenAI API Key"]
  else
    ["Azure Endpoint", "Azure Deployment ID", "Azure API Key", "Azure API Version"]

/-- The function `initialSetupModel` (setup_wizard.go:44-54): a fresh widget of width 60
with the focus, step `stepProviderSelection`, an empty answers map. -/
def initialSetupModel : setupModel :=
  { step := .stepProviderSelection
    provider := ""
    currentField := ""
    fieldIndex := 0
    input := { value := "", pos := 0, Placeholder := "", Width := 60, focus := true }
    answers := []
    done := false
    err := none }

/-- The tail of `setupModel.Update` (setup_wizard.go:136-140), reached when no case of
the switch returned: in `stepInputCredential` the message goes to the text widget. -/
def setupModel.updateInput (inputUpdate : InputUpdate) (m : setupModel) (msg : Msg) :
    setupModel × Cmd :=
  if m.step = .stepInputCredential then
    let r := inputUpdate m.input msg
    ({ m with input := r.1 }, r.2)
  else (m, .nil)

/-- The cases "1" and "2" of `stepProviderSelection` (setup_wizard.go:68-81). The index
`fields[0]` exists for both providers. -/
def setupModel.chooseProvider (m : setupModel) (provider : String) : setupModel :=
  let fields := getFieldsForProvider provider
  let currentField := fields.getD 0 ""
  { m with
    provider := provider
    step := .stepInputCredential
    currentField := currentField
    input := { m.input with Placeholder := "Enter " ++ currentField } }

/-- The method `setupModel.Update` (setup_wizard.go:60-141). -/
def setupModel.Update (inputUpdate : InputUpdate) (m : setupModel) (msg : Msg) :
    setupModel × Cmd :=
  match msg with
  | .key s =>
    match m.step with
    | .stepProviderSelection =>
      if s = "1" then (m.chooseProvider "openai", .nil)
      else if s = "2" then (m.chooseProvider "azure_openai", .nil)
      else if s = "q" ∨ s = "ctrl+c" then (m, .Quit)
      else m.updateInput inputUpdate msg
    | .stepInputCredential =>
      if s = "enter" then
        if TrimSpace m.input.value = "" then (m, .nil)
        else
          let answers := mapSet m.answers m.currentField m.input.value
          let input := m.input.SetValue ""
          let fields := getFieldsForProvider m.provider
          let fieldIndex := m.fieldIndex + 1
          if fieldIndex ≥ fields.length then
            ({ m with answers := answers, input := input, fieldIndex := fieldIndex,
                      step := .stepConfirm }, .nil)
          else
            let currentField := fields.getD fieldIndex ""
            ({ m with answers := answers, fieldIndex := fieldIndex,
                      currentField := currentField,
                      input := { input with Placeholder := "Enter " ++ currentField } },
              .nil)
      else if s = "esc" then
        ({ m with step := .stepProviderSelection, fieldIndex := 0,
                  input := m.input.SetValue "" }, .nil)
      else m.updateInput inputUpdate msg
    | .stepConfirm =>
      if s = "y" ∨ s = "Y" ∨ s = "enter" then
        ({ m with step := .stepDone, done := true }, .Quit)
      else if s = "n" ∨ s = "N" then (initialSetupModel, .nil)
      else if s = "esc" then
        ({ m with step := .stepProviderSelection, fieldIndex := 0,
                  input := m.input.SetValue "" }, .nil)
      else m.updateInput inputUpdate msg
    | .stepDone => m.updateInput inputUpdate msg
  | .other => m.updateInput inputUpdate msg

/-! ### `setupModel.View`: the screens of the wizard

Go indexes and measures a string by bytes, so the rendered text is modelled as the list
of its bytes. -/

/-- The bytes of a Go string. -/
abbrev Bytes := List Nat

/-- The UTF-8 encoding of a code point. -/
def utf8Bytes (c : Char) : Bytes :=
  let n := c.toNat
  if n < 0x80 then [n]
  else if n < 0x800 then [0xC0 + n / 0x40, 0x80 + n % 0x40]
  else if n < 0x10000 then [0xE0 + n / 0x1000, 0x80 + n / 0x40 % 0x40, 0x80 + n % 0x40]
  else
    [0xF0 + n / 0x40000, 0x80 + n / 0x1000 % 0x40, 0x80 + n / 0x40 % 0x40, 0x80 + n % 0x40]

/-- The bytes of a text: Go's view of a string. -/
def toBytes (s : String) : Bytes :=
  s.data.flatMap utf8Bytes

/-- The Go slice expression `s[:n]`: a run-time panic (`none`) when `n > len(s)`. -/
def sliceTo (b : Bytes) (n : Nat) : Option Bytes :=
  if n ≤ b.length then some (b.take n) else none

/-- Go `strings.Repeat(s, count)`: a run-time panic (`none`) when `count` is negative. -/
def Repeat (b : Bytes) (count : Int) : Option Bytes :=
  if count < 0 then none else some (List.replicate count.toNat b).flatten

/-- The test `masked` of the confirmation screen (setup_wizard.go:174). -/
def isMasked (ToLower : String → String) (field : String) : Bool :=
  Contains (ToLower field) "key" || Contains (ToLower field) "token"

/-- The line the confirmation screen writes for one recorded answer
(setup_wizard.go:174-179); `none` is a run-time panic. -/
def confirmLine (ToLower : String → String) (field value : String) : Option Bytes :=
  if isMasked ToLower field then
    match sliceTo (toBytes value) 4 with
    | none => none
    | some shown =>
      match Repeat (toBytes "*") (((toBytes value).length : Int) - 4) with
      | none => none
      | some stars => some (toBytes field ++ toBytes ": " ++ shown ++ stars ++ toBytes "\n")
  else
    some (toBytes field ++ toBytes ": " ++ toBytes value ++ toBytes "\n")

/-- The loop over the answers in the confirmation screen (setup_wizard.go:173-180), in
the order the entries are ranged over. -/
def confirmLines (ToLower : String → String) : StringMap → Option Bytes
  | [] => some []
  | (field, value) :: rest =>
    match confirmLine ToLower field value with
    | none => none
    | some line =>
      match confirmLines ToLower rest with
      | none => none
      | some lines => some (line ++ lines)

/-- The loop over the fields in the input screen (setup_wizard.go:157-167), from index
`i` on. -/
def progressLines (inputView : String) (fieldIndex : Nat) : Nat → List String → Bytes
  | _, [] => []
  | i, field :: rest =>
    (if i < fieldIndex then toBytes "âœ“ " ++ toBytes field ++ toBytes "\n"
     else if i = fieldIndex then
       toBytes "\n> " ++ toBytes field ++ toBytes ":\n" ++ toBytes inputView ++
         toBytes "\n\nPress ENTER to confirm (ESC to start over)\n"
     else toBytes "  " ++ toBytes field ++ toBytes "\n") ++
    progressLines inputView fieldIndex (i + 1) rest

/-- What `View` takes from outside the repository: `strings.ToLower`, `strings.Title`,
the text widget's own `View`, and the order in which Go ranges over a map this time. -/
structure ViewEnv where
  ToLower : String → String
  Title : String → String
  inputView : textinputModel → String
  rangeOrder : StringMap → StringMap

/-- The method `setupModel.View` (setup_wizard.go:143-188); `none` is a run-time
panic. -/
def setupModel.View (env : ViewEnv) (m : setupModel) : Option Bytes :=
  match m.step with
  | .stepProviderSelection =>
    some (toBytes "Select AI Provider:\n\n" ++ toBytes "1. OpenAI\n" ++
      toBytes "2. Azure OpenAI\n\n" ++
      toBytes "Press 1 or 2 to select a provider (ESC to cancel)\n")
  | .stepInputCredential =>
    some (toBytes "Setting up " ++ toBytes (env.Title m.provider) ++ toBytes "\n\n" ++
      progressLines (env.inputView m.input) m.fieldIndex 0 (getFieldsForProvider m.provider))
  | .stepConfirm =>
    match confirmLines env.ToLower (env.rangeOrder m.answers) with
    | none => none
    | some lines =>
      some (toBytes "Please confirm your configuration:\n\n" ++ toBytes "AI Provider: " ++
        toBytes (env.Title m.provider) ++ toBytes "\n" ++ lines ++
        toBytes "\nConfirm? (Y/n): ")
  | .stepDone => some (toBytes "Configuration saved successfully!")

/-! ### `RunSetup`: the driver of the wizard -/

/-- The configuration `RunSetup` builds from the final model (setup_wizard.go:207-220). -/
def buildConfig (finalModel : setupModel) : Config :=
  let cfg : Config :=
    { AIProvider := finalModel.provider, AIKey := "", AzureEndpoint := "",
      AzureDeploymentID := "", AzureAPIKey := "", AzureAPIVersion := "" }
  if cfg.AIProvider = "openai" then
    { cfg with AIKey := mapGet finalModel.answers "OpenAI API Key" }
  else
    { cfg with
      AzureEndpoint := mapGet finalModel.answers "Azure Endpoint"
      AzureDeploymentID := mapGet finalModel.answers "Azure Deployment ID"
      AzureAPIKey := mapGet finalModel.answers "Azure API Key"
      AzureAPIVersion := mapGet finalModel.answers "Azure API Version" }

/-- The call `p.Run()` of `RunSetup` (setup_wizard.go:191-192): the wizard program run
from `initialSetupModel()`. -/
def runWizard (inputUpdate : InputUpdate) (env : ViewEnv) (panicText : String) (ahead : Nat)
    (events : Except String (List Msg)) : Except String setupModel :=
  teaRun (setupModel.Update inputUpdate) (setupModel.View env) panicText ahead
    initialSetupModel events

/-- The function `RunSetup` (setup_wizard.go:190-221). -/
def RunSetup (inputUpdate : InputUpdate) (env : ViewEnv) (panicText : String) (ahead : Nat)
    (events : Except String (List Msg)) : Except String Config :=
  match runWizard inputUpdate env panicText ahead events with
  | .error e => .error ("setup error: " ++ e)
  | .ok finalModel =>
    if ¬ finalModel.done then .error "setup cancelled"
    else .ok (buildConfig finalModel)

/-- The label the `stepInputCredential` screen shows as the current field: the entry of
the provider's field list at `fieldIndex` (setup_wizard.go:159-163). -/
def displayedField (m : setupModel) : String :=
  (getFieldsForProvider m.provider).getD m.fieldIndex ""

/-- What the user submits with a message: in `stepInputCredential`, pressing enter on a
buffer that is not blank submits the buffer under the label on display. -/
def submission (p : setupModel × Msg) : Option (String × String) :=
  if p.1.step = .stepInputCredential ∧ p.2 = .key "enter" ∧
      TrimSpace p.1.input.value ≠ "" then
    some (displayedField p.1, p.1.input.value)
  else none

/-- All submissions made while a sequence of messages is applied to the wizard from its
initial model, oldest first. -/
def submissions (inputUpdate : InputUpdate) (msgs : List Msg) : List (String × String) :=
  (feedSteps (setupModel.Update inputUpdate) initialSetupModel msgs).filterMap submission

/-- The value most recently submitted under a label, if any. -/
def lastSubmitted (subs : List (String × String)) (label : String) : Option String :=
  subs.reverse.lookup label

/-- The fields a provider requires, read from a configuration: label and value. -/
def requiredValues (cfg : Config) : List (String × String) :=
  if cfg.AIProvider = "openai" then
    [("OpenAI API Key", cfg.AIKey)]
  else
    [("Azure Endpoint", cfg.AzureEndpoint), ("Azure Deployment ID", cfg.AzureDeploymentID),
     ("Azure API Key", cfg.AzureAPIKey), ("Azure API Version", cfg.AzureAPIVersion)]

/-! ## `internal/app`, `internal/cmd` and `main.go`: the flows -/

/-- How a run of the external `git` with inherited streams ends: it exits with a status,
or it cannot be started. -/
inductive ToolResult where
  | exited (status : Nat)
  | notStarted (err : String)
  deriving DecidableEq, Repr

/-- The error of `cmd.Run()`: `nil` exactly when the tool ran and exited with status 0,
otherwise an `*exec.ExitError` ("exit status N") or the start error. -/
def cmdRun : ToolResult → Option String
  | .exited 0 => none
  | .exited (n + 1) => some ("exit status " ++ toString (n + 1))
  | .notStarted e => some e

/-- The struct `app.App`; `Repo` records whether `a.Repo != nil`. -/
structure App where
  Config : Config
  Repo : Bool
  GitCmd : String

/-- What lies outside the program during one invocation. -/
structure World where
  /-- Go `strings.ToLower`. -/
  ToLower : String → String
  /-- The AI backend behind `CreateChatCompletion`. -/
  api : Backend
  /-- The text widget's `Update`. -/
  inputUpdate : InputUpdate
  /-- The external tool run with inherited streams, by its arguments. -/
  git : List String → ToolResult
  /-- The external tool run through `cmd.Output()`, by its arguments. -/
  gitOutput : List String → Except String String
  /-- What `p.Run()` meets in the commit-message prompt. -/
  commitKeys : Except String (List Msg)
  /-- How many messages the commit-message prompt reads ahead of its quit message. -/
  commitAhead : Nat
  /-- What `p.Run()` meets in the fallback prompt. -/
  fallbackKeys : Except String (List Msg)
  /-- How many messages the fallback prompt reads ahead of its quit message. -/
  fallbackAhead : Nat
  /-- What `p.Run()` meets in the setup wizard. -/
  setupKeys : Except String (List Msg)
  /-- How many messages the setup wizard reads ahead of its quit message. -/
  setupAhead : Nat
  /-- Go `strings.Title`. -/
  Title : String → String
  /-- The text widget's `View`. -/
  inputView : textinputModel → String
  /-- The order in which Go ranges over the answers map. -/
  rangeOrder : StringMap → StringMap
  /-- The text of the error `p.Run()` returns when `View` panics. -/
  panicText : String
  /-- The result of `reader.ReadString('\n')` on standard input. -/
  stdinLine : Except String String
  /-- The `pflag` parse of the arguments after `commit`: the `--message` (`-m`) value. -/
  messageFlag : List String → Except String String
  /-- What `cobra` does for the registered commands this development does not embed
  (`status`, `setup`, the help aliases). -/
  otherCommand : List String → Option String

/-- What `View` takes from a surrounding. -/
def World.viewEnv (w : World) : ViewEnv :=
  { ToLower := w.ToLower, Title := w.Title, inputView := w.inputView,
    rangeOrder := w.rangeOrder }

/-- The effects a flow performs, in the order it performs them. -/
inductive Effect where
  | stdout (s : String)
  | stderr (s : String)
  /-- `exec.Command(gitCmd, args...).Output()`. -/
  | gitOutput (gitCmd : String) (args : List String)
  /-- `a.ExecGit(args...)`: the external tool run with inherited streams. -/
  | execGit (gitCmd : String) (args : List String)
  /-- `ai.GenerateCommitMessages(cfg, prompt)` is called. -/
  | generate (prompt : String)
  /-- `client.CreateChatCompletion(ctx, req)` is called. -/
  | backend (client : Client) (req : ChatCompletionRequest)
  /-- The fallback selection prompt is run on these options. -/
  | fallbackPrompt (options : List String)
  /-- The commit-message selection prompt is run on these options. -/
  | commitPrompt (options : List String)
  /-- The setup wizard is run. -/
  | setupWizard
  /-- A line is read from standard input. -/
  | readLine
  /-- A registered command that is not embedded is run by `cobra`. -/
  | otherCommand (argv : List String)
  deriving DecidableEq, Repr

/-- How a Go function returning `error` ends: `nil`, an error, or a run-time panic. -/
inductive Ret where
  | nil
  | err (e : String)
  | panic (e : String)
  deriving DecidableEq, Repr

/-- An `error` value as a `Ret`. -/
def Ret.ofError : Option String → Ret
  | none => .nil
  | some e => .err e

/-- The method `App.ExecGit` (app.go:50-56). -/
def ExecGit (w : World) (a : App) (args : List String) : List Effect × Option String :=
  ([.execGit a.GitCmd args], cmdRun (w.git args))

/-- The method `App.GetDiff` (app.go:58-72). -/
def GetDiff (w : World) (a : App) : List Effect × Except String String :=
  if ¬ a.Repo then ([], .error "not a git repository")
  else ([.gitOutput a.GitCmd ["diff", "--cached"]], w.gitOutput ["diff", "--cached"])

/-- The method `App.GetStagedFiles` (app.go:74-88). -/
def GetStagedFiles (w : World) (a : App) : List Effect × Except String String :=
  if ¬ a.Repo then ([], .error "not a git repository")
  else
    ([.gitOutput a.GitCmd ["diff", "--cached", "--name-only"]],
      w.gitOutput ["diff", "--cached", "--name-only"])

/-- The function `handleUnconfiguredAPI` (commit.go:72-110); its string result is always
empty and is left out. The `View` of the fallback model (commit.go:59-70) only formats
the options and cannot panic, so its `p.Run()` is `runProgram`. -/
def handleUnconfiguredAPI (w : World) (a : App) : List Effect × Ret :=
  let t0 : List Effect := [.fallbackPrompt initialFallbackModel.options]
  match w.fallbackKeys with
  | .error e => (t0, .err e)
  | .ok msgs =>
    let fm := runProgram fallbackModel.Update w.fallbackAhead initialFallbackModel msgs
    if fm.selected = -1 then (t0, .err "no option selected")
    else if fm.selected = 0 then
      let t1 := t0 ++ [.stdout "\nEnter your commit message: ", .readLine]
      match w.stdinLine with
      | .error e => (t1, .err e)
      | .ok line =>
        let message := TrimSpace line
        let r := ExecGit w a ["commit", "-m", message]
        (t1 ++ r.1, Ret.ofError r.2)
    else
      match RunSetup w.inputUpdate w.viewEnv w.panicText w.setupAhead w.setupKeys with
      | .error e => (t0 ++ [.setupWizard], .err ("setup failed: " ++ e))
      | .ok _ => (t0 ++ [.setupWizard], .err "setup completed, please try committing again")

/-- The slice read `s[i]` for a Go `int` index: a panic outside `0 ≤ i < len(s)`. -/
def index? (s : List String) (i : Int) : Option String :=
  if i < 0 then none else s.get? i.toNat

/-- The text of the sentinel option the commit flow appends. -/
def customOption : String := "Write custom message"

/-- The prompt the commit flow builds (commit.go:196-200). -/
def commitPromptText (stagedFiles diff : String) : String :=
  "Generate a single line, concise, and descriptive git commit message summarizing the staged changes on the following files: "
    ++ TrimSpace stagedFiles ++
    ". Do not include bullet points, extra formatting, or multiple lines. Diff:\n" ++ diff

/-- The part of the commit command after a successful provider call
(commit.go:212-244). The `View` of the commit model (commit.go:152-163) only formats the
choices and cannot panic, so its `p.Run()` is `runProgram`. -/
def commitSelect (w : World) (a : App) (provided : List String) : List Effect × Ret :=
  let suggestions := provided ++ [customOption]
  let t0 : List Effect := [.commitPrompt suggestions]
  match w.commitKeys with
  | .error e => (t0, .err e)
  | .ok msgs =>
    let cm := runProgram commitModel.Update w.commitAhead (initialCommitModel suggestions) msgs
    if cm.selected = -1 then (t0, .err "no commit message selected")
    else
      match index? suggestions cm.selected with
      | none => (t0, .panic "index out of range")
      | some commitMsg =>
        if commitMsg = customOption then
          let t1 := t0 ++ [.stdout "\nEnter your commit message: ", .readLine]
          match w.stdinLine with
          | .error e => (t1, .err e)
          | .ok customMsg =>
            let r := ExecGit w a ["commit", "-m", TrimSpace customMsg]
            (t1 ++ r.1, Ret.ofError r.2)
        else
          let r := ExecGit w a ["commit", "-m", commitMsg]
          (t0 ++ r.1, Ret.ofError r.2)

/-- The `RunE` of the commit command (commit.go:171-245); `message` is the value of the
`--message` (`-m`) flag. -/
def commitRunE (w : World) (a : App) (message : String) : List Effect × Ret :=
  if message ≠ "" then
    let r := ExecGit w a ["commit", "-m", message]
    (r.1, Ret.ofError r.2)
  else
    match GetStagedFiles w a with
    | (t1, .error e) => (t1, .err e)
    | (t1, .ok stagedFiles) =>
      let t2 := t1 ++ [.stdout "Staged files:\n", .stdout (TrimSpace stagedFiles ++ "\n"),
        .stdout "----------\n"]
      match GetDiff w a with
      | (t3, .error e) => (t2 ++ t3, .err e)
      | (t3, .ok diff) =>
        if TrimSpace diff = "" then (t2 ++ t3, .err "no staged changes detected")
        else
          let prompt := commitPromptText stagedFiles diff
          let r := GenerateCommitMessages w.ToLower w.api a.Config prompt
          let t4 := t2 ++ t3 ++ [.generate prompt] ++
            r.calls.map (fun c => Effect.backend c.1 c.2)
          match r.result with
          | .error e =>
            if Contains e "API key is not configured" then
              let h := handleUnconfiguredAPI w a
              (t4 ++ h.1, h.2)
            else (t4, .err e)
          | .ok provided =>
            let s := commitSelect w a provided
            (t4 ++ s.1, s.2)

/-- The `RunE` of the root command (root.go:16-22). -/
def rootRunE (w : World) (a : App) (args : List String) : List Effect × Ret :=
  if args.length = 0 then
    let r := ExecGit w a ["--help"]
    (r.1, Ret.ofError r.2)
  else
    let r := ExecGit w a args
    (r.1, Ret.ofError r.2)

/-- The call `rootCmd.Execute()` on the argument vector `os.Args[1:]`: with no
arguments `cobra` runs the root command's `RunE` on an empty list; `commit` runs the
commit command on its parsed flag; the other registered names are not embedded. -/
def rootExecute (w : World) (a : App) (argv : List String) : List Effect × Ret :=
  match argv with
  | [] => rootRunE w a []
  | first :: rest =>
    if first = "commit" then
      match w.messageFlag rest with
      | .error e => ([], .err e)
      | .ok message => commitRunE w a message
    else ([.otherCommand argv], Ret.ofError (w.otherCommand argv))

/-- The map `handledCommands` of `main` (main.go:20-27). -/
def handledCommands (name : String) : Bool :=
  name = "commit" || name = "status" || name = "help" || name = "setup" ||
    name = "--help" || name = "-h"

/-- The function `main` (main.go:12-48) on the argument vector `argv = os.Args[1:]`,
with the result of `app.New()`; it returns the effects performed and the process exit
status. -/
def main (w : World) (newApp : Except String App) (argv : List String) :
    List Effect × Nat :=
  match newApp with
  | .error e => ([.stderr ("Error initializing giq: " ++ e ++ "\n")], 1)
  | .ok a =>
    match argv with
    | first :: _ =>
      if ¬ handledCommands first then
        match ExecGit w a argv with
        | (t, some e) =>
          (t ++ [.stderr ("Error executing 'git " ++ Join argv " " ++ "': " ++ e ++ "\n")], 1)
        | (t, none) => (t, 0)
      else
        match rootExecute w a argv with
        | (t, .err e) =>
          (t ++ [.stderr ("Error executing 'git " ++ Join argv " " ++ "': " ++ e ++ "\n")], 1)
        | (t, .panic _) => (t, 2)
        | (t, .nil) => (t, 0)
    | [] =>
      match rootExecute w a [] with
      | (t, .err e) =>
        (t ++ [.stderr ("Error executing 'git " ++ Join [] " " ++ "': " ++ e ++ "\n")], 1)
      | (t, .panic _) => (t, 2)
      | (t, .nil) => (t, 0)

/-- The arguments handed to the external tool by `a.ExecGit` in a list of effects. -/
def gitInvocations (t : List Effect) : List (List String) :=
  t.filterMap (fun e => match e with
    | .execGit _ args => some args
    | _ => none)

/-- The clients on which the backend was called in a list of effects. -/
def backendClients (t : List Effect) : List Client :=
  t.filterMap (fun e => match e with
    | .backend client _ => some client
    | _ => none)

/-- An effect that belongs to the AI or UI logic: a provider or backend call, a
selection prompt, the wizard, or a line read from the user. -/
def Effect.isAIorUI : Effect → Bool
  | .generate _ => true
  | .backend _ _ => true
  | .fallbackPrompt _ => true
  | .commitPrompt _ => true
  | .setupWizard => true
  | .readLine => true
  | _ => false

/-- Go `strings.ToLower` on texts made of ASCII characters, used to run the definitions
on concrete inputs. -/
def asciiToLower (s : String) : String :=
  ⟨s.data.map Char.toLower⟩

/-- A configuration that selects the Azure-style backend and lacks the endpoint. -/
def azureNoEndpoint : Config :=
  { AIProvider := "Azure_OpenAI", AIKey := "sk-1", AzureEndpoint := "",
    AzureDeploymentID := "dep", AzureAPIKey := "key", AzureAPIVersion := "2023-05-15" }

/-- A complete configuration for the default backend. -/
def openAIComplete : Config :=
  { AIProvider := "openai", AIKey := "sk-1", AzureEndpoint := "",
    AzureDeploymentID := "", AzureAPIKey := "", AzureAPIVersion := "" }

/-- A backend that answers every request with the same choices. -/
def constBackend (r : Except String (List String)) : Backend :=
  fun _ _ => r

/-- A configuration that selects the Azure-style backend and sets none of its fields. -/
def azureUnset : Config :=
  { AIProvider := "azure_openai", AIKey := "", AzureEndpoint := "",
    AzureDeploymentID := "", AzureAPIKey := "", AzureAPIVersion := "" }

/-- A configuration that selects the default backend and has no API key. -/
def openAIUnset : Config :=
  { AIProvider := "openai", AIKey := "", AzureEndpoint := "",
    AzureDeploymentID := "", AzureAPIKey := "", AzureAPIVersion := "" }

/-- An application value inside a repository with the given configuration. -/
def demoApp (cfg : Config) : App :=
  { Config := cfg, Repo := true, GitCmd := "/usr/bin/git" }

/-- A concrete surrounding: one staged file with a one-line diff, a backend answering
with `choices`, a `git` exiting with `status`, a user who presses the keys `keys` in the
commit prompt, presses enter in the fallback prompt, quits the wizard and types
`typed message` when asked for a line; no program reads ahead of its quit message. -/
def demoWorld (choices : List String) (status : Nat) (keys : List Msg) : World :=
  { ToLower := asciiToLower
    api := constBackend (.ok choices)
    inputUpdate := fun t _ => (t, .nil)
    git := fun _ => .exited status
    gitOutput := fun args =>
      if args = ["diff", "--cached", "--name-only"] then .ok "a.go\n" else .ok "+x\n"
    commitKeys := .ok keys
    commitAhead := 0
    fallbackKeys := .ok [.key "enter"]
    fallbackAhead := 0
    setupKeys := .ok [.key "q"]
    setupAhead := 0
    Title := fun s => s
    inputView := fun t => t.value
    rangeOrder := fun m => m
    panicText := "program was killed: program experienced a panic"
    stdinLine := .ok "typed message\n"
    messageFlag := fun _ => .ok ""
    otherCommand := fun _ => none }

/-- The surrounding `demoWorld` in which the staged file list is empty while the staged
diff is not. -/
def noFilesWorld : World :=
  { demoWorld ["fix: a"] 0 [.key "enter"] with
    gitOutput := fun args =>
      if args = ["diff", "--cached", "--name-only"] then .ok "" else .ok "+x\n" }

/-- A fallback model read as a commit model over the same options. -/
def fallbackModel.toCommit (f : fallbackModel) : commitModel :=
  { choices := f.options, cursor := f.cursor, selected := f.selected }

/-- The keys on which a selection model returns `tea.Quit`. -/
def quitsSelection (msg : Msg) : Prop :=
  msg = .key "enter" ∨ msg = .key "q" ∨ msg = .key "ctrl+c"

/-- The cursor of a selection model lies in the list: at least 0 and at most the last
index (for an empty list, which has no index, it is 0). -/
def cursorInRange (m : commitModel) : Prop :=
  0 ≤ m.cursor ∧ m.cursor ≤ max ((m.choices.length : Int) - 1) 0

/-- The selection of a selection model is "none" (-1) or lies in the list. -/
def selectedInRange (m : commitModel) : Prop :=
  m.selected = -1 ∨ (0 ≤ m.selected ∧ m.selected ≤ max ((m.choices.length : Int) - 1) 0)

/-- The invariant of the wizard, relative to the submissions made so far: `done` is set
exactly in `stepDone`; every recorded answer is the value most recently submitted under
its label and is not blank; past the provider selection the provider is one of the two
names; while fields are entered the field cursor is inside the provider's field list, the
current field is the one on display and all earlier fields are recorded; on the provider
selection screen the field cursor is 0; and from the confirmation on every field of the
provider is recorded. -/
structure WizardInv (subs : List (String × String)) (m : setupModel) : Prop where
  done_iff : m.done = true ↔ m.step = .stepDone
  answers_submitted : ∀ label v, m.answers.lookup label = some v →
    lastSubmitted subs label = some v ∧ TrimSpace v ≠ ""
  provider_known : m.step ≠ .stepProviderSelection →
    m.provider = "openai" ∨ m.provider = "azure_openai"
  index_zero : m.step = .stepProviderSelection → m.fieldIndex = 0
  input_index : m.step = .stepInputCredential →
    m.fieldIndex < (getFieldsForProvider m.provider).length ∧
    m.currentField = (getFieldsForProvider m.provider).getD m.fieldIndex "" ∧
    ∀ j, j < m.fieldIndex →
      ∃ v, m.answers.lookup ((getFieldsForProvider m.provider).getD j "") = some v
  all_recorded : m.step = .stepConfirm ∨ m.step = .stepDone →
    ∀ f ∈ getFieldsForProvider m.provider, ∃ v, m.answers.lookup f = some v

/-- The configuration a wizard run with provider "1" and key `sk-1` yields. -/
def wizardDemoConfig : Config :=
  { AIProvider := "openai", AIKey := "sk-1", AzureEndpoint := "",
    AzureDeploymentID := "", AzureAPIKey := "", AzureAPIVersion := "" }

/-- A text widget whose `Update` appends the text of a key press to the buffer, used to
run the wizard on concrete inputs. -/
def appendInput : InputUpdate :=
  fun t msg =>
    match msg with
    | .key s => ({ t with value := t.value ++ s, pos := t.pos + s.length }, .nil)
    | .other => (t, .nil)

/-- The wizard after the user has edited the text widget into the state `t`: in
`stepInputCredential` a message other than "enter" and "esc" changes nothing but
`m.input`. -/
def setupModel.edited (m : setupModel) (t : textinputModel) : setupModel :=
  { m with input := t }

/-- Submitting the contents of the widget states `ts` in turn: for each, the widget is
edited into that state and "enter" is pressed. -/
def submitAll (inputUpdate : InputUpdate) : setupModel → List textinputModel → setupModel
  | m, [] => m
  | m, t :: ts =>
    submitAll inputUpdate (setupModel.Update inputUpdate (m.edited t) (.key "enter")).1 ts

/-- A widget state holding the text `v`. -/
def holding (v : String) : textinputModel :=
  { value := v, pos := v.length, Placeholder := "", Width := 60, focus := true }

/-- The wizard in `stepConfirm` after the Azure run with the values `e`, `d`, `k`, `v`
typed as single keys. -/
def azureConfirmModel : setupModel :=
  feed (setupModel.Update appendInput) initialSetupModel
    [.key "2", .key "e", .key "enter", .key "d", .key "enter", .key "k", .key "enter",
     .key "v", .key "enter"]

/-- The provider a key of the provider selection screen stands for: "1" is OpenAI, "2"
is Azure OpenAI (setup_wizard.go:68-81). -/
def providerOfKey (c : String) : String :=
  if c = "1" then "openai" else "azure_openai"

/-- The state of the wizard after `i` submissions, as the specification describes it:
the provider is the one chosen; the field cursor is `i`; with fields left the wizard is
in `stepInputCredential` at field `i`, with none left it is in `stepConfirm`; after a
submission the buffer is empty; and each of the first `i` values is recorded under its
own label. -/
structure AfterSubmissions (provider : String) (ts : List textinputModel) (i : Nat)
    (m : setupModel) : Prop where
  provider_eq : m.provider = provider
  index_eq : m.fieldIndex = i
  more : i < (getFieldsForProvider provider).length →
    m.step = .stepInputCredential ∧ m.currentField = (getFieldsForProvider provider).getD i ""
  last : i = (getFieldsForProvider provider).length → m.step = .stepConfirm
  cleared : 0 < i → m.input.value = ""
  recorded : ∀ (j : Nat) (t : textinputModel), j < i → ts[j]? = some t →
    m.answers.lookup ((getFieldsForProvider provider).getD j "") = some t.value

/-- Four widget states holding an endpoint, a deployment id, an API key and an API
version. -/
def azureValues : List textinputModel :=
  [holding "https://x.openai.azure.com/", holding "gpt4o-dep", holding "abcdefgh",
   holding "2023-05-15"]

/-- A concrete surrounding for `View`: ASCII lower-casing, a title function that leaves
the text as it is, a widget shown as its buffer, and the map ranged over in list order. -/
def demoViewEnv : ViewEnv :=
  { ToLower := asciiToLower, Title := fun s => s, inputView := fun t => t.value,
    rangeOrder := fun m => m }

/-- The wizard in `stepConfirm` after provider "1" and the three-character key `abc`. -/
def shortKeyModel : setupModel :=
  feed (setupModel.Update appendInput) initialSetupModel
    [.key "1", .key "a", .key "b", .key "c", .key "enter"]

/-- The surrounding `demoWorld` with three suggestions in which the user types enter,
"j", enter at once and the commit prompt reads both later keys ahead of its quit
message. -/
def typeAheadWorld : World :=
  { demoWorld ["fix: a", "fix: b", "docs: c"] 0 [.key "enter", .key "j", .key "enter"] with
    commitAhead := 2 }

/-- The text of the error `p.Run()` returns when `View` panics, as the library words it. -/
def demoPanicText : String := "program was killed: program experienced a panic"

/-! ## Theorems -/

/-! ### Whitespace trimming -/

theorem rdropWhile_append_rtakeWhile (p : Char → Bool) (l : List Char) :
    l.rdropWhile p ++ l.rtakeWhile p = l := by
  have h2 : (l.reverse.takeWhile p ++ l.reverse.dropWhile p).reverse = l := by
    rw [List.takeWhile_append_dropWhile, List.reverse_reverse]
  rw [List.reverse_append] at h2
  exact h2

theorem head?_rdropWhile_dropWhile (l : List Char) :
    ∀ c ∈ (trimSpaceChars l).head?, isSpace c = false := by
  intro c hc
  unfold trimSpaceChars at hc
  obtain ⟨t, ht⟩ := List.rdropWhile_prefix isSpace (l := l.dropWhile isSpace)
  cases hr : (l.dropWhile isSpace).rdropWhile isSpace with
  | nil => simp [hr] at hc
  | cons x xs =>
    rw [hr] at hc ht
    simp at hc
    subst hc
    have h := List.head?_dropWhile_not isSpace l
    rw [← ht] at h
    simpa using h

theorem getLast?_trimSpaceChars (l : List Char) :
    ∀ c ∈ (trimSpaceChars l).getLast?, isSpace c = false := by
  intro c hc
  unfold trimSpaceChars at hc
  by_cases hne : (l.dropWhile isSpace).rdropWhile isSpace = []
  · simp [hne] at hc
  · have h := List.rdropWhile_last_not isSpace (l.dropWhile isSpace) hne
    rw [List.getLast?_eq_getLast _ hne] at hc
    simp at hc
    subst hc
    simpa using h

/-- `strings.TrimSpace` removes exactly the leading and trailing whitespace. -/
theorem TrimSpace_isTrimOf (s : String) : IsTrimOf (TrimSpace s) s := by
  refine ⟨s.data.takeWhile isSpace, (s.data.dropWhile isSpace).rtakeWhile isSpace, ?_, ?_, ?_,
    ?_, ?_⟩
  · show s.data = _ ++ trimSpaceChars s.data ++ _
    unfold trimSpaceChars
    rw [List.append_assoc, rdropWhile_append_rtakeWhile, List.takeWhile_append_dropWhile]
  · intro c hc
    exact List.mem_takeWhile_imp hc
  · intro c hc
    exact List.mem_rtakeWhile_imp hc
  · exact head?_rdropWhile_dropWhile s.data
  · exact getLast?_trimSpaceChars s.data

/-! ### The suggestion provider -/

theorem openAI_result (api : Backend) (cfg : Config) (prompt : String) (h : cfg.AIKey ≠ "") :
    (generateCommitMessagesOpenAI api cfg prompt).calls =
        [(Client.openai cfg.AIKey, openAIRequest prompt)] ∧
      (generateCommitMessagesOpenAI api cfg prompt).result =
        match api (Client.openai cfg.AIKey) (openAIRequest prompt) with
        | .error e => .error ("OpenAI API error: " ++ e)
        | .ok choices =>
          if choices = [] then .error "no completions returned from OpenAI"
          else .ok (choices.map TrimSpace) := by
  unfold generateCommitMessagesOpenAI
  simp only [h, if_false]
  cases api (Client.openai cfg.AIKey) (openAIRequest prompt) with
  | error e => exact ⟨rfl, rfl⟩
  | ok choices => cases choices <;> simp

theorem azure_result (api : Backend) (cfg : Config) (prompt : String)
    (h : ¬ (cfg.AzureAPIKey = "" ∨ cfg.AzureEndpoint = "" ∨ cfg.AzureDeploymentID = "" ∨
      cfg.AzureAPIVersion = "")) :
    (generateCommitMessagesAzure api cfg prompt).calls =
        [(Client.azure cfg.AzureAPIKey cfg.AzureEndpoint cfg.AzureDeploymentID,
          azureRequest prompt)] ∧
      (generateCommitMessagesAzure api cfg prompt).result =
        match api (Client.azure cfg.AzureAPIKey cfg.AzureEndpoint cfg.AzureDeploymentID)
            (azureRequest prompt) with
        | .error e => .error ("Azure OpenAI API error: " ++ e)
        | .ok choices =>
          if choices = [] then .error "no completions returned from Azure OpenAI"
          else .ok (choices.map TrimSpace) := by
  unfold generateCommitMessagesAzure
  have hm : azureModelMapperFunc cfg GPT4o = cfg.AzureDeploymentID := by
    simp [azureModelMapperFunc]
  simp only [h, if_false, hm]
  cases api (Client.azure cfg.AzureAPIKey cfg.AzureEndpoint cfg.AzureDeploymentID)
      (azureRequest prompt) with
  | error e => exact ⟨rfl, rfl⟩
  | ok choices => cases choices <;> simp

/-- C1: whenever a field required by the selected provider is empty (the provider is
the Azure-style backend exactly when the lower-cased `ai_provider` is `azure_openai`, and
then endpoint, deployment id, API key and API version are required; otherwise it is the
default backend and only the API key is required), `GenerateCommitMessages` makes no
backend call and returns the configuration error of that provider. Conversely, when no
required field is empty the backend of the selected provider is called exactly once. -/
theorem C1_missing_field_is_configuration_error (ToLower : String → String) (api : Backend)
    (cfg : Config) (prompt : String) :
    (missingRequiredField ToLower cfg →
      (GenerateCommitMessages ToLower api cfg prompt).calls = [] ∧
      (selectsAzure ToLower cfg →
        (GenerateCommitMessages ToLower api cfg prompt).result =
          .error "Azure OpenAI configuration is incomplete") ∧
      (¬ selectsAzure ToLower cfg →
        (GenerateCommitMessages ToLower api cfg prompt).result =
          .error "OpenAI API key is not configured") ∧
      ∃ e, (GenerateCommitMessages ToLower api cfg prompt).result = .error e ∧
        isConfigurationError e) ∧
    (¬ missingRequiredField ToLower cfg →
      (selectsAzure ToLower cfg →
        (GenerateCommitMessages ToLower api cfg prompt).calls =
          [(Client.azure cfg.AzureAPIKey cfg.AzureEndpoint cfg.AzureDeploymentID,
            azureRequest prompt)]) ∧
      (¬ selectsAzure ToLower cfg →
        (GenerateCommitMessages ToLower api cfg prompt).calls =
          [(Client.openai cfg.AIKey, openAIRequest prompt)])) := by
  unfold missingRequiredField selectsAzure isConfigurationError GenerateCommitMessages
  by_cases hp : ToLower cfg.AIProvider = "azure_openai"
  · simp only [hp, true_and, not_true_eq_false, false_and, or_false, if_true, true_implies,
      false_implies, and_true]
    constructor
    · intro hm
      have hm2 : cfg.AzureAPIKey = "" ∨ cfg.AzureEndpoint = "" ∨ cfg.AzureDeploymentID = "" ∨
          cfg.AzureAPIVersion = "" := by tauto
      simp [generateCommitMessagesAzure, hm2]
    · intro hm
      have hm2 : ¬ (cfg.AzureAPIKey = "" ∨ cfg.AzureEndpoint = "" ∨ cfg.AzureDeploymentID = "" ∨
          cfg.AzureAPIVersion = "") := by tauto
      exact (azure_result api cfg prompt hm2).1
  · simp only [hp, false_and, not_false_eq_true, true_and, false_or, if_false, true_implies,
      false_implies, and_true]
    constructor
    · intro hm
      simp [generateCommitMessagesOpenAI, hm]
    · intro hm
      exact (openAI_result api cfg prompt hm).1

/-- C1 at a concrete input: `ai_provider: Azure_OpenAI` with an empty endpoint. -/
theorem C1_missing_field_is_configuration_error_witness :
    missingRequiredField asciiToLower azureNoEndpoint ∧
    (GenerateCommitMessages asciiToLower (constBackend (.ok ["x"])) azureNoEndpoint "p").calls = [] ∧
    (GenerateCommitMessages asciiToLower (constBackend (.ok ["x"])) azureNoEndpoint "p").result =
      .error "Azure OpenAI configuration is incomplete" :=
  ⟨by decide,
    ((C1_missing_field_is_configuration_error asciiToLower (constBackend (.ok ["x"]))
      azureNoEndpoint "p").1 (by decide)).1,
    ((C1_missing_field_is_configuration_error asciiToLower (constBackend (.ok ["x"]))
      azureNoEndpoint "p").1 (by decide)).2.1 (by decide)⟩

/-- The result of `GenerateCommitMessages` in terms of the answer of the backend it
called. -/
theorem generate_result_of_call (ToLower : String → String) (api : Backend) (cfg : Config)
    (prompt : String) (client : Client) (req : ChatCompletionRequest)
    (hc : (client, req) ∈ (GenerateCommitMessages ToLower api cfg prompt).calls) :
    (GenerateCommitMessages ToLower api cfg prompt).calls = [(client, req)] ∧
    (((GenerateCommitMessages ToLower api cfg prompt).result =
        match api client req with
        | .error e => .error ("Azure OpenAI API error: " ++ e)
        | .ok choices =>
          if choices = [] then .error "no completions returned from Azure OpenAI"
          else .ok (choices.map TrimSpace)) ∨
      ((GenerateCommitMessages ToLower api cfg prompt).result =
        match api client req with
        | .error e => .error ("OpenAI API error: " ++ e)
        | .ok choices =>
          if choices = [] then .error "no completions returned from OpenAI"
          else .ok (choices.map TrimSpace))) := by
  unfold GenerateCommitMessages at hc ⊢
  by_cases hp : ToLower cfg.AIProvider = "azure_openai"
  · simp only [hp, if_true] at hc ⊢
    by_cases hm : cfg.AzureAPIKey = "" ∨ cfg.AzureEndpoint = "" ∨ cfg.AzureDeploymentID = "" ∨
        cfg.AzureAPIVersion = ""
    · simp [generateCommitMessagesAzure, hm] at hc
    · obtain ⟨h1, h2⟩ := azure_result api cfg prompt hm
      rw [h1] at hc
      simp only [List.mem_singleton, Prod.mk.injEq] at hc
      obtain ⟨rfl, rfl⟩ := hc
      exact ⟨h1, Or.inl h2⟩
  · simp only [hp, if_false] at hc ⊢
    by_cases hm : cfg.AIKey = ""
    · simp [generateCommitMessagesOpenAI, hm] at hc
    · obtain ⟨h1, h2⟩ := openAI_result api cfg prompt hm
      rw [h1] at hc
      simp only [List.mem_singleton, Prod.mk.injEq] at hc
      obtain ⟨rfl, rfl⟩ := hc
      exact ⟨h1, Or.inr h2⟩

/-- A successful provider call has called the backend. -/
theorem calls_ne_nil_of_ok (ToLower : String → String) (api : Backend) (cfg : Config)
    (prompt : String) (out : List String)
    (hout : (GenerateCommitMessages ToLower api cfg prompt).result = .ok out) :
    (GenerateCommitMessages ToLower api cfg prompt).calls ≠ [] := by
  unfold GenerateCommitMessages at hout ⊢
  by_cases hp : ToLower cfg.AIProvider = "azure_openai"
  · simp only [hp, if_true] at hout ⊢
    by_cases hm : cfg.AzureAPIKey = "" ∨ cfg.AzureEndpoint = "" ∨ cfg.AzureDeploymentID = "" ∨
        cfg.AzureAPIVersion = ""
    · simp [generateCommitMessagesAzure, hm] at hout
    · rw [(azure_result api cfg prompt hm).1]
      simp
  · simp only [hp, if_false] at hout ⊢
    by_cases hm : cfg.AIKey = ""
    · simp [generateCommitMessagesOpenAI, hm] at hout
    · rw [(openAI_result api cfg prompt hm).1]
      simp

/-- C3: for every successful `GenerateCommitMessages` call (either backend) exactly one
backend call was made, it returned a list of choices, and the returned list is non-empty,
has as many entries as there were choices, in the same order, entry `i` being the text of
choice `i` with leading and trailing whitespace removed; a backend answer with zero
choices yields an error; and a backend answer with at least one choice yields success. -/
theorem C3_success_is_trimmed_choices (ToLower : String → String) (api : Backend)
    (cfg : Config) (prompt : String) :
    (∀ out, (GenerateCommitMessages ToLower api cfg prompt).result = .ok out →
      ∃ client req choices,
        (GenerateCommitMessages ToLower api cfg prompt).calls = [(client, req)] ∧
        api client req = .ok choices ∧
        out ≠ [] ∧ out.length = choices.length ∧
        (∀ i : Nat, out[i]? = (choices[i]?).map TrimSpace) ∧
        (∀ (i : Nat) t c, out[i]? = some t → choices[i]? = some c → IsTrimOf t c)) ∧
    (∀ client req, (client, req) ∈ (GenerateCommitMessages ToLower api cfg prompt).calls →
      api client req = .ok [] →
      ∃ e, (GenerateCommitMessages ToLower api cfg prompt).result = .error e) ∧
    (∀ client req choices,
      (client, req) ∈ (GenerateCommitMessages ToLower api cfg prompt).calls →
      api client req = .ok choices → choices ≠ [] →
      (GenerateCommitMessages ToLower api cfg prompt).result = .ok (choices.map TrimSpace)) := by
  refine ⟨?_, ?_, ?_⟩
  · intro out hout
    have hcalls := calls_ne_nil_of_ok ToLower api cfg prompt out hout
    obtain ⟨⟨client, req⟩, hmem⟩ := List.exists_mem_of_ne_nil _ hcalls
    obtain ⟨h1, h2⟩ := generate_result_of_call ToLower api cfg prompt client req hmem
    have key : ∃ choices, api client req = .ok choices ∧ choices ≠ [] ∧
        out = choices.map TrimSpace := by
      cases hapi : api client req with
      | error e =>
        rw [hapi] at h2
        rcases h2 with h2 | h2 <;> rw [h2] at hout <;> cases hout
      | ok choices =>
        rw [hapi] at h2
        by_cases hnil : choices = []
        · simp only [hnil, if_true] at h2
          rcases h2 with h2 | h2 <;> rw [h2] at hout <;> cases hout
        · simp only [hnil, if_false] at h2
          refine ⟨choices, rfl, hnil, ?_⟩
          rcases h2 with h2 | h2 <;> rw [h2] at hout <;> injection hout with hout <;>
            exact hout.symm
    obtain ⟨choices, hapi, hne, hout2⟩ := key
    refine ⟨client, req, choices, h1, hapi, ?_, ?_, ?_, ?_⟩
    · rw [hout2]
      simpa using hne
    · rw [hout2]
      simp
    · intro i
      rw [hout2]
      simp
    · intro i t c ht hc
      rw [hout2] at ht
      simp only [List.getElem?_map, hc, Option.map_some', Option.some.injEq] at ht
      rw [← ht]
      exact TrimSpace_isTrimOf c
  · intro client req hmem hapi
    obtain ⟨_, h2⟩ := generate_result_of_call ToLower api cfg prompt client req hmem
    rw [hapi] at h2
    simp only [if_true] at h2
    rcases h2 with h2 | h2 <;> exact ⟨_, h2⟩
  · intro client req choices hmem hapi hne
    obtain ⟨_, h2⟩ := generate_result_of_call ToLower api cfg prompt client req hmem
    rw [hapi] at h2
    simp only [hne, if_false] at h2
    rcases h2 with h2 | h2 <;> exact h2

/-- C3 at a concrete input: a complete default configuration and a backend answering
with two padded texts. -/
theorem C3_success_is_trimmed_choices_witness :
    (GenerateCommitMessages asciiToLower (constBackend (.ok ["  fix: a \n", "\tadd b"]))
      openAIComplete "p").result = .ok ["fix: a", "add b"] ∧
    ∃ client req choices,
      (GenerateCommitMessages asciiToLower (constBackend (.ok ["  fix: a \n", "\tadd b"]))
        openAIComplete "p").calls = [(client, req)] ∧
      constBackend (.ok ["  fix: a \n", "\tadd b"]) client req = .ok choices ∧
      ["fix: a", "add b"] ≠ [] ∧ ["fix: a", "add b"].length = choices.length ∧
      (∀ i : Nat, ["fix: a", "add b"][i]? = (choices[i]?).map TrimSpace) ∧
      (∀ (i : Nat) t c, ["fix: a", "add b"][i]? = some t → choices[i]? = some c → IsTrimOf t c) :=
  ⟨rfl,
    (C3_success_is_trimmed_choices asciiToLower (constBackend (.ok ["  fix: a \n", "\tadd b"]))
      openAIComplete "p").1 ["fix: a", "add b"] rfl⟩

/-! ### The commit flow and the router -/

/-- C2 (the code at the failing input): with `ai_provider: azure_openai` and no Azure
field set, no explicit message and a non-empty diff, the commit command returns the
provider's error "Azure OpenAI configuration is incomplete" and never runs the fallback
prompt, because that text does not contain "API key is not configured"; with the default
provider and no API key, in the same surrounding, the fallback prompt is run. -/
theorem C2_azure_incomplete_is_propagated :
    missingRequiredField asciiToLower azureUnset ∧
    Contains "Azure OpenAI configuration is incomplete" "API key is not configured" = false ∧
    (commitRunE (demoWorld [] 0 []) (demoApp azureUnset) "").2 =
      .err "Azure OpenAI configuration is incomplete" ∧
    Effect.fallbackPrompt initialFallbackModel.options ∉
      (commitRunE (demoWorld [] 0 []) (demoApp azureUnset) "").1 ∧
    missingRequiredField asciiToLower openAIUnset ∧
    Effect.fallbackPrompt ["Write custom commit message", "Setup AI configuration"] ∈
      (commitRunE (demoWorld [] 0 []) (demoApp openAIUnset) "").1 := by
  refine ⟨by decide, by decide, by decide, by decide, by decide, by decide⟩

/-- C7 (the code at the failing input): the backend returns three choices of which the
first is the text "Write custom message"; the prompt is given four options, the user
confirms option 0, a suggestion, and the flow asks for raw text and commits with the
typed line instead of the text of suggestion 0. -/
theorem C7_suggestion_equal_to_sentinel :
    Effect.commitPrompt ["Write custom message", "fix: b", "docs: c", "Write custom message"] ∈
      (commitRunE (demoWorld [" Write custom message\n", "fix: b", "docs: c"] 0 [.key "enter"])
        (demoApp openAIComplete) "").1 ∧
    (∀ ahead : Nat, (runProgram commitModel.Update ahead
      (initialCommitModel ["Write custom message", "fix: b", "docs: c", "Write custom message"])
      [.key "enter"]).selected = 0) ∧
    Effect.readLine ∈
      (commitRunE (demoWorld [" Write custom message\n", "fix: b", "docs: c"] 0 [.key "enter"])
        (demoApp openAIComplete) "").1 ∧
    gitInvocations
      (commitRunE (demoWorld [" Write custom message\n", "fix: b", "docs: c"] 0 [.key "enter"])
        (demoApp openAIComplete) "").1 = [["commit", "-m", "typed message"]] := by
  refine ⟨by decide, fun ahead => by cases ahead <;> rfl, by decide, by decide⟩

/-- C4 (counterexample): with the empty argument vector the external tool is not run on
the received (empty) vector; it is run on `--help`. -/
theorem C4_empty_argv_counterexample :
    (∀ first ∈ ([] : List String).head?, handledCommands first = false) ∧
    gitInvocations (main (demoWorld [] 0 []) (.ok (demoApp openAIComplete)) []).1 =
      [["--help"]] ∧
    gitInvocations (main (demoWorld [] 0 []) (.ok (demoApp openAIComplete)) []).1 ≠ [[]] := by
  refine ⟨by decide, by decide, by decide⟩

/-- C4 (amended): for every argument vector whose first token is not an enhanced command
name, the first and only thing `main` does besides reporting a failure on standard error
is to run the external tool, on exactly the received vector when it is non-empty and on
`--help` when it is empty; no AI or UI logic runs. -/
theorem C4_unhandled_first_token_delegates (w : World) (a : App) (argv : List String)
    (h : ∀ first ∈ argv.head?, handledCommands first = false) :
    (∃ rest, (main w (.ok a) argv).1 =
        Effect.execGit a.GitCmd (if argv = [] then ["--help"] else argv) :: rest ∧
      ∀ e ∈ rest, ∃ s, e = Effect.stderr s) ∧
    gitInvocations (main w (.ok a) argv).1 = [if argv = [] then ["--help"] else argv] ∧
    ∀ e ∈ (main w (.ok a) argv).1, e.isAIorUI = false := by
  have key : ∃ rest, (main w (.ok a) argv).1 =
        Effect.execGit a.GitCmd (if argv = [] then ["--help"] else argv) :: rest ∧
      ∀ e ∈ rest, ∃ s, e = Effect.stderr s := by
    cases argv with
    | nil =>
      simp only [main, rootExecute, rootRunE, ExecGit, List.length_nil, if_true]
      cases cmdRun (w.git ["--help"]) with
      | none => exact ⟨[], rfl, by simp⟩
      | some e => exact ⟨_, rfl, by simp [Ret.ofError]⟩
    | cons first rest =>
      have hf : handledCommands first = false := h first (by simp)
      simp only [main, hf, ExecGit]
      cases cmdRun (w.git (first :: rest)) with
      | none => exact ⟨[], by simp, by simp⟩
      | some e => exact ⟨_, by simp; rfl, by simp⟩
  obtain ⟨rest, h1, h2⟩ := key
  refine ⟨⟨rest, h1, h2⟩, ?_, ?_⟩
  · rw [h1]
    have hrest : gitInvocations rest = [] := by
      unfold gitInvocations
      rw [List.filterMap_eq_nil_iff]
      intro e he
      obtain ⟨s, rfl⟩ := h2 e he
      rfl
    show gitInvocations ([Effect.execGit a.GitCmd _] ++ rest) = _
    unfold gitInvocations at hrest ⊢
    rw [List.filterMap_append, hrest]
    rfl
  · intro e he
    rw [h1] at he
    rcases List.mem_cons.mp he with rfl | he
    · rfl
    · obtain ⟨s, rfl⟩ := h2 e he
      rfl

/-- C4 (amended) at a concrete input: `giq log --oneline`. -/
theorem C4_unhandled_first_token_delegates_witness :
    (∀ first ∈ (["log", "--oneline"] : List String).head?, handledCommands first = false) ∧
    gitInvocations (main (demoWorld [] 0 []) (.ok (demoApp openAIComplete))
      ["log", "--oneline"]).1 = [["log", "--oneline"]] :=
  ⟨by decide,
    (C4_unhandled_first_token_delegates (demoWorld [] 0 []) (demoApp openAIComplete)
      ["log", "--oneline"] (by decide)).2.1⟩

/-- C5 (counterexample): `giq log` with the external tool exiting with status 2 ends with
exit status 1, not 2. -/
theorem C5_exit_status_counterexample :
    (demoWorld [] 2 []).git ["log"] = .exited 2 ∧
    gitInvocations (main (demoWorld [] 2 []) (.ok (demoApp openAIComplete)) ["log"]).1 =
      [["log"]] ∧
    (main (demoWorld [] 2 []) (.ok (demoApp openAIComplete)) ["log"]).2 = 1 ∧
    (main (demoWorld [] 2 []) (.ok (demoApp openAIComplete)) ["log"]).2 ≠ 2 := by
  refine ⟨by decide, by decide, by decide, by decide⟩

/-- C5 (amended): when an invocation is delegated to the external tool and the tool exits
with status `n`, the process exit status is 0 if `n` is 0 and 1 for every other `n`. -/
theorem C5_exit_status_zero_or_one (w : World) (a : App) (argv : List String) (n : Nat)
    (h : ∀ first ∈ argv.head?, handledCommands first = false)
    (hn : w.git (if argv = [] then ["--help"] else argv) = .exited n) :
    (main w (.ok a) argv).2 = if n = 0 then 0 else 1 := by
  cases argv with
  | nil =>
    simp only [if_true] at hn
    simp only [main, rootExecute, rootRunE, ExecGit, List.length_nil, if_true, hn]
    cases n <;> simp [cmdRun, Ret.ofError]
  | cons first rest =>
    have hf : handledCommands first = false := h first (by simp)
    simp only [List.cons_ne_nil, if_false] at hn
    simp only [main, hf, ExecGit, hn]
    cases n <;> simp [cmdRun]

/-- C5 (amended) at a concrete input: `giq log` with the tool exiting with status 128. -/
theorem C5_exit_status_zero_or_one_witness :
    (∀ first ∈ (["log"] : List String).head?, handledCommands first = false) ∧
    (demoWorld [] 128 []).git (if ["log"] = [] then ["--help"] else ["log"]) = .exited 128 ∧
    (main (demoWorld [] 128 []) (.ok (demoApp openAIComplete)) ["log"]).2 =
      if 128 = 0 then 0 else 1 :=
  ⟨by decide, by decide,
    C5_exit_status_zero_or_one (demoWorld [] 128 []) (demoApp openAIComplete) ["log"] 128
      (by decide) (by decide)⟩

/-- C6 (counterexample): with an empty staged file list and a non-empty staged diff the
commit flow does not fail with "no staged changes detected"; it calls the provider. -/
theorem C6_empty_file_list_counterexample :
    (GetStagedFiles noFilesWorld (demoApp openAIComplete)).2 = .ok "" ∧
    TrimSpace "" = "" ∧
    (commitRunE noFilesWorld (demoApp openAIComplete) "").2 ≠
      .err "no staged changes detected" ∧
    backendClients (commitRunE noFilesWorld (demoApp openAIComplete) "").1 =
      [Client.openai "sk-1"] ∧
    gitInvocations (commitRunE noFilesWorld (demoApp openAIComplete) "").1 =
      [["commit", "-m", "fix: a"]] := by
  refine ⟨rfl, by decide, by decide, by decide, by decide⟩

/-- C6 (amended): in the commit flow without an explicit message, once the staged file
list and the staged diff have been fetched, if the diff is empty after whitespace
trimming the flow fails with "no staged changes detected" and neither the provider nor
any prompt is reached, whatever the file list is. -/
theorem C6_empty_diff_fails_before_provider (w : World) (a : App) (files diff : String)
    (hf : (GetStagedFiles w a).2 = .ok files) (hd : (GetDiff w a).2 = .ok diff)
    (ht : TrimSpace diff = "") :
    (commitRunE w a "").2 = .err "no staged changes detected" ∧
    ∀ e ∈ (commitRunE w a "").1, e.isAIorUI = false := by
  have hrepo : a.Repo = true := by
    by_contra hr
    simp [GetDiff, hr] at hd
  simp only [GetStagedFiles, hrepo, not_true_eq_false, if_false] at hf
  simp only [GetDiff, hrepo, not_true_eq_false, if_false] at hd
  simp only [commitRunE, ne_eq, not_true_eq_false, if_false, GetStagedFiles, GetDiff, hrepo,
    hf, hd, ht, if_true, true_and]
  intro e he
  simp only [List.append_assoc, List.cons_append, List.nil_append, List.mem_cons,
    List.mem_singleton, List.not_mem_nil, or_false] at he
  rcases he with rfl | rfl | rfl | rfl | rfl <;> rfl

/-- C6 (amended) at a concrete input: a staged file list with one file and a staged diff
made of whitespace. -/
theorem C6_empty_diff_fails_before_provider_witness :
    (commitRunE { demoWorld [] 0 [] with gitOutput := fun args =>
        if args = ["diff", "--cached", "--name-only"] then .ok "a.go\n" else .ok " \n" }
      (demoApp openAIComplete) "").2 = .err "no staged changes detected" :=
  (C6_empty_diff_fails_before_provider
    { demoWorld [] 0 [] with gitOutput := fun args =>
        if args = ["diff", "--cached", "--name-only"] then .ok "a.go\n" else .ok " \n" }
    (demoApp openAIComplete) "a.go\n" " \n" rfl rfl (by decide)).1

/-! ### Event loops -/

theorem feed_invariant {M : Type} (update : M → Msg → M × Cmd) (P : M → Prop)
    (hstep : ∀ m msg, P m → P (update m msg).1) :
    ∀ (msgs : List Msg) (m : M), P m → P (feed update m msgs) := by
  intro msgs
  induction msgs with
  | nil => intro m hm; exact hm
  | cons msg rest ih =>
    intro m hm
    exact ih _ (hstep m msg hm)

theorem runProgram_invariant {M : Type} (update : M → Msg → M × Cmd) (P : M → Prop)
    (hstep : ∀ m msg, P m → P (update m msg).1) (ahead : Nat) (msgs : List Msg) (m : M)
    (hm : P m) : P (runProgram update ahead m msgs) :=
  feed_invariant update P hstep _ m hm

theorem feed_append {M : Type} (update : M → Msg → M × Cmd) (l1 l2 : List Msg) :
    ∀ m : M, feed update m (l1 ++ l2) = feed update (feed update m l1) l2 := by
  induction l1 with
  | nil => intro m; rfl
  | cons msg l1 ih =>
    intro m
    simp only [List.cons_append, feed]
    exact ih _

/-- Messages whose `Update` does not return `tea.Quit` are all applied, and the loop goes
on from the model they lead to. -/
theorem applied_append {M : Type} (update : M → Msg → M × Cmd) (ahead : Nat)
    (pre rest : List Msg) :
    ∀ m : M, (∀ m1 msg, msg ∈ pre → (update m1 msg).2 ≠ .Quit) →
      applied update ahead m (pre ++ rest) =
        pre ++ applied update ahead (feed update m pre) rest := by
  induction pre with
  | nil => intro m _; rfl
  | cons msg pre ih =>
    intro m hq
    have h1 := hq m msg (by simp)
    have h2 := ih (update m msg).1 (fun m1 k hk => hq m1 k (by simp [hk]))
    simp only [List.cons_append, applied, feed]
    rcases hu : update m msg with ⟨m1, c⟩
    rw [hu] at h1 h2
    cases c
    · simpa using h2
    · exact absurd rfl h1
    · simpa using h2

/-- At the first message whose `Update` returns `tea.Quit`, the loop applies it and
`ahead` more. -/
theorem applied_quit {M : Type} (update : M → Msg → M × Cmd) (ahead : Nat) (m : M)
    (k : Msg) (rest : List Msg) (hk : (update m k).2 = .Quit) :
    applied update ahead m (k :: rest) = k :: rest.take ahead := by
  simp only [applied]
  rcases hu : update m k with ⟨m1, c⟩
  rw [hu] at hk
  simp only at hk
  subst hk
  rfl

/-! ### The selection models -/

theorem commitModel_quit_iff (m : commitModel) (msg : Msg) :
    (commitModel.Update m msg).2 = .Quit ↔ quitsSelection msg := by
  unfold quitsSelection
  cases msg with
  | other => simp [commitModel.Update]
  | key s =>
    simp only [commitModel.Update, Msg.key.injEq]
    split_ifs with h1 h2 h3 h4 h5 h6 <;> simp_all <;> rcases ‹_ ∨ _› with h | h <;> subst h <;> decide

theorem commitModel_choices (m : commitModel) (msg : Msg) :
    (commitModel.Update m msg).1.choices = m.choices := by
  cases msg with
  | other => rfl
  | key s =>
    simp only [commitModel.Update]
    split_ifs <;> rfl

theorem commitModel_cursorInRange (m : commitModel) (msg : Msg) (h : cursorInRange m) :
    cursorInRange (commitModel.Update m msg).1 := by
  unfold cursorInRange at h ⊢
  cases msg with
  | other => exact h
  | key s =>
    simp only [commitModel.Update]
    split_ifs <;> simp only [] <;> omega

theorem commitModel_selected_unchanged (m : commitModel) (msg : Msg)
    (h : msg ≠ .key "enter") : (commitModel.Update m msg).1.selected = m.selected := by
  cases msg with
  | other => rfl
  | key s =>
    have hs : s ≠ "enter" := fun hs => h (by rw [hs])
    simp only [commitModel.Update, hs, if_false]
    split_ifs <;> rfl

theorem commitModel_selectedInRange (m : commitModel) (msg : Msg)
    (h : cursorInRange m ∧ selectedInRange m) :
    cursorInRange (commitModel.Update m msg).1 ∧ selectedInRange (commitModel.Update m msg).1 := by
  refine ⟨commitModel_cursorInRange m msg h.1, ?_⟩
  obtain ⟨hc, hsel⟩ := h
  unfold cursorInRange at hc
  unfold selectedInRange at hsel ⊢
  cases msg with
  | other => exact hsel
  | key s =>
    simp only [commitModel.Update]
    split_ifs <;> simp only [] <;> omega

theorem commitModel_selected_none (m : commitModel) (msg : Msg)
    (h : m.selected = -1) (hq : (commitModel.Update m msg).2 ≠ .Quit) :
    (commitModel.Update m msg).1.selected = -1 := by
  rw [commitModel_selected_unchanged m msg, h]
  intro he
  exact hq ((commitModel_quit_iff m msg).mpr (Or.inl he))

theorem fallback_simulates (f : fallbackModel) (msg : Msg) :
    (fallbackModel.Update f msg).1.toCommit = (commitModel.Update f.toCommit msg).1 ∧
    (fallbackModel.Update f msg).2 = (commitModel.Update f.toCommit msg).2 := by
  cases msg with
  | other => exact ⟨rfl, rfl⟩
  | key s =>
    simp only [fallbackModel.Update, commitModel.Update, fallbackModel.toCommit]
    split_ifs <;> exact ⟨rfl, rfl⟩

theorem fallback_feed (msgs : List Msg) :
    ∀ f : fallbackModel, (feed fallbackModel.Update f msgs).toCommit =
      feed commitModel.Update f.toCommit msgs := by
  induction msgs with
  | nil => intro f; rfl
  | cons msg rest ih =>
    intro f
    simp only [feed]
    rw [ih, (fallback_simulates f msg).1]

theorem fallback_applied (ahead : Nat) (msgs : List Msg) :
    ∀ f : fallbackModel, applied fallbackModel.Update ahead f msgs =
      applied commitModel.Update ahead f.toCommit msgs := by
  induction msgs with
  | nil => intro f; rfl
  | cons msg rest ih =>
    intro f
    obtain ⟨h1, h2⟩ := fallback_simulates f msg
    simp only [applied]
    rcases hu : fallbackModel.Update f msg with ⟨f1, c⟩
    rcases hv : commitModel.Update f.toCommit msg with ⟨m1, d⟩
    rw [hu, hv] at h1 h2
    simp only at h1 h2
    subst h1 h2
    cases c
    · simp only [ih f1]
    · rfl
    · simp only [ih f1]

theorem fallback_runProgram (ahead : Nat) (msgs : List Msg) (f : fallbackModel) :
    (runProgram fallbackModel.Update ahead f msgs).toCommit =
      runProgram commitModel.Update ahead f.toCommit msgs := by
  unfold runProgram
  rw [fallback_feed, fallback_applied]

theorem initial_cursorInRange (choices : List String) :
    cursorInRange (initialCommitModel choices) ∧ selectedInRange (initialCommitModel choices) := by
  unfold cursorInRange selectedInRange initialCommitModel
  simp

theorem commitModel_up (m : commitModel) (k : String) (hk : k = "up" ∨ k = "k") :
    (m.cursor = 0 → (commitModel.Update m (.key k)).1.cursor = 0) ∧
    (0 < m.cursor → (commitModel.Update m (.key k)).1.cursor = m.cursor - 1) := by
  simp only [commitModel.Update, hk, if_true]
  constructor
  · intro h0
    simp [h0]
  · intro h0
    simp [h0]

theorem commitModel_down (m : commitModel) (k : String) (hk : k = "down" ∨ k = "j") :
    (m.cursor = (m.choices.length : Int) - 1 →
      (commitModel.Update m (.key k)).1.cursor = (m.choices.length : Int) - 1) ∧
    (m.cursor < (m.choices.length : Int) - 1 →
      (commitModel.Update m (.key k)).1.cursor = m.cursor + 1) := by
  have hk2 : ¬ (k = "up" ∨ k = "k") := by
    rcases hk with h | h <;> subst h <;> decide
  simp only [commitModel.Update, hk, hk2, if_true, if_false]
  constructor
  · intro h0
    simp [h0]
  · intro h0
    simp [h0]

theorem commitModel_cursor_unchanged (m : commitModel) (msg : Msg)
    (h : ∀ k, msg = .key k → k ≠ "up" ∧ k ≠ "k" ∧ k ≠ "down" ∧ k ≠ "j") :
    (commitModel.Update m msg).1.cursor = m.cursor := by
  cases msg with
  | other => rfl
  | key s =>
    obtain ⟨h1, h2, h3, h4⟩ := h s rfl
    simp only [commitModel.Update, h1, h2, h3, h4, or_self, if_false]
    split_ifs <;> rfl

theorem feed_choices (msgs : List Msg) (m : commitModel) :
    (feed commitModel.Update m msgs).choices = m.choices :=
  feed_invariant commitModel.Update (fun x => x.choices = m.choices)
    (fun x msg hx => (commitModel_choices x msg).trans hx) msgs m rfl

theorem runProgram_choices (ahead : Nat) (msgs : List Msg) (m : commitModel) :
    (runProgram commitModel.Update ahead m msgs).choices = m.choices :=
  feed_choices _ m

theorem feed_cursor_bounds (choices : List String) (msgs : List Msg) :
    0 ≤ (feed commitModel.Update (initialCommitModel choices) msgs).cursor ∧
    (feed commitModel.Update (initialCommitModel choices) msgs).cursor ≤
      max ((choices.length : Int) - 1) 0 := by
  have h := feed_invariant commitModel.Update cursorInRange commitModel_cursorInRange msgs _
    (initial_cursorInRange choices).1
  unfold cursorInRange at h
  rw [feed_choices] at h
  exact h

theorem feed_bounds (choices : List String) (msgs : List Msg) :
    cursorInRange (feed commitModel.Update (initialCommitModel choices) msgs) ∧
    selectedInRange (feed commitModel.Update (initialCommitModel choices) msgs) :=
  feed_invariant commitModel.Update (fun x => cursorInRange x ∧ selectedInRange x)
    commitModel_selectedInRange msgs _ (initial_cursorInRange choices)

theorem runProgram_cursor_bounds (choices : List String) (ahead : Nat) (msgs : List Msg) :
    0 ≤ (runProgram commitModel.Update ahead (initialCommitModel choices) msgs).cursor ∧
    (runProgram commitModel.Update ahead (initialCommitModel choices) msgs).cursor ≤
      max ((choices.length : Int) - 1) 0 :=
  feed_cursor_bounds choices _

/-- C8: for both selection models and every sequence of messages from the initial
model (all of them applied, or those `p.Run()` applies whatever it reads ahead of the
quit message) the cursor is at least 0
and, the option list being non-empty, at most the last index (for an empty list it stays
0); "up" (or "k") at index 0 leaves it at 0 and otherwise subtracts one; "down" (or "j")
at the last index leaves it there and below it adds one; no other message moves it; and
[down, down, up] on a three-option list ends at index 1. -/
theorem C8_cursor_is_clamped (choices : List String) (msgs : List Msg) (ahead : Nat) :
    (0 ≤ (feed commitModel.Update (initialCommitModel choices) msgs).cursor ∧
      (choices ≠ [] → (feed commitModel.Update (initialCommitModel choices) msgs).cursor ≤
        (choices.length : Int) - 1) ∧
      (choices = [] → (feed commitModel.Update (initialCommitModel choices) msgs).cursor = 0)) ∧
    (0 ≤ (runProgram commitModel.Update ahead (initialCommitModel choices) msgs).cursor ∧
      (choices ≠ [] →
        (runProgram commitModel.Update ahead (initialCommitModel choices) msgs).cursor ≤
          (choices.length : Int) - 1)) ∧
    (0 ≤ (feed fallbackModel.Update initialFallbackModel msgs).cursor ∧
      (feed fallbackModel.Update initialFallbackModel msgs).cursor ≤
        (initialFallbackModel.options.length : Int) - 1) ∧
    (0 ≤ (runProgram fallbackModel.Update ahead initialFallbackModel msgs).cursor ∧
      (runProgram fallbackModel.Update ahead initialFallbackModel msgs).cursor ≤
        (initialFallbackModel.options.length : Int) - 1) ∧
    (∀ (m : commitModel) (k : String), k = "up" ∨ k = "k" →
      (m.cursor = 0 → (commitModel.Update m (.key k)).1.cursor = 0) ∧
      (0 < m.cursor → (commitModel.Update m (.key k)).1.cursor = m.cursor - 1)) ∧
    (∀ (m : commitModel) (k : String), k = "down" ∨ k = "j" →
      (m.cursor = (m.choices.length : Int) - 1 →
        (commitModel.Update m (.key k)).1.cursor = (m.choices.length : Int) - 1) ∧
      (m.cursor < (m.choices.length : Int) - 1 →
        (commitModel.Update m (.key k)).1.cursor = m.cursor + 1)) ∧
    (∀ (m : commitModel) (msg : Msg),
      (∀ k, msg = .key k → k ≠ "up" ∧ k ≠ "k" ∧ k ≠ "down" ∧ k ≠ "j") →
      (commitModel.Update m msg).1.cursor = m.cursor) ∧
    (∀ (f : fallbackModel) (k : String), k = "up" ∨ k = "k" →
      (f.cursor = 0 → (fallbackModel.Update f (.key k)).1.cursor = 0) ∧
      (0 < f.cursor → (fallbackModel.Update f (.key k)).1.cursor = f.cursor - 1)) ∧
    (∀ (f : fallbackModel) (k : String), k = "down" ∨ k = "j" →
      (f.cursor = (f.options.length : Int) - 1 →
        (fallbackModel.Update f (.key k)).1.cursor = (f.options.length : Int) - 1) ∧
      (f.cursor < (f.options.length : Int) - 1 →
        (fallbackModel.Update f (.key k)).1.cursor = f.cursor + 1)) ∧
    (∀ (f : fallbackModel) (msg : Msg),
      (∀ k, msg = .key k → k ≠ "up" ∧ k ≠ "k" ∧ k ≠ "down" ∧ k ≠ "j") →
      (fallbackModel.Update f msg).1.cursor = f.cursor) ∧
    (∀ a b c : String,
      (runProgram commitModel.Update ahead (initialCommitModel [a, b, c])
        [.key "down", .key "down", .key "up"]).cursor = 1 ∧
      (feed commitModel.Update (initialCommitModel [a, b, c])
        [.key "down", .key "down", .key "up"]).cursor = 1) := by
  have hlen : ∀ ch : List String, ch ≠ [] → (1 : Int) ≤ (ch.length : Int) := by
    intro ch hne
    have := List.length_pos.mpr hne
    omega
  refine ⟨?_, ?_, ?_, ?_, commitModel_up, commitModel_down, commitModel_cursor_unchanged,
    ?_, ?_, ?_, ?_⟩
  · have h := feed_cursor_bounds choices msgs
    refine ⟨h.1, fun hne => ?_, fun he => ?_⟩
    · have := hlen choices hne
      omega
    · subst he
      simp only [List.length_nil] at h
      omega
  · have h := runProgram_cursor_bounds choices ahead msgs
    refine ⟨h.1, fun hne => ?_⟩
    have := hlen choices hne
    omega
  · have h := feed_cursor_bounds initialFallbackModel.options msgs
    have e : (feed fallbackModel.Update initialFallbackModel msgs).toCommit =
        feed commitModel.Update (initialCommitModel initialFallbackModel.options) msgs :=
      fallback_feed msgs initialFallbackModel
    rw [← e] at h
    have hl : (initialFallbackModel.options.length : Int) = 2 := rfl
    rw [hl] at h ⊢
    simp only [fallbackModel.toCommit] at h
    omega
  · have h := runProgram_cursor_bounds initialFallbackModel.options ahead msgs
    have e : (runProgram fallbackModel.Update ahead initialFallbackModel msgs).toCommit =
        runProgram commitModel.Update ahead (initialCommitModel initialFallbackModel.options)
          msgs :=
      fallback_runProgram ahead msgs initialFallbackModel
    rw [← e] at h
    have hl : (initialFallbackModel.options.length : Int) = 2 := rfl
    rw [hl] at h ⊢
    simp only [fallbackModel.toCommit] at h
    omega
  · intro f k hk
    have h := commitModel_up f.toCommit k hk
    rw [← (fallback_simulates f (.key k)).1] at h
    exact h
  · intro f k hk
    have h := commitModel_down f.toCommit k hk
    rw [← (fallback_simulates f (.key k)).1] at h
    exact h
  · intro f msg hmsg
    have h := commitModel_cursor_unchanged f.toCommit msg hmsg
    rw [← (fallback_simulates f msg).1] at h
    exact h
  · intro a b c
    exact ⟨rfl, rfl⟩

/-- C8 at a concrete input: three "down" on a two-option list stop at index 1. -/
theorem C8_cursor_is_clamped_witness :
    (["a", "b"] : List String) ≠ [] ∧
    (feed commitModel.Update (initialCommitModel ["a", "b"])
      [.key "down", .key "down", .key "down"]).cursor ≤ ((["a", "b"] : List String).length : Int) - 1 :=
  ⟨by decide,
    (C8_cursor_is_clamped ["a", "b"] [.key "down", .key "down", .key "down"] 0).1.2.1
      (by decide)⟩

theorem feed_no_enter_selected (post : List Msg) :
    ∀ m : commitModel, Msg.key "enter" ∉ post →
      (feed commitModel.Update m post).selected = m.selected := by
  induction post with
  | nil => intro m _; rfl
  | cons msg post ih =>
    intro m hq
    have hmsg : msg ≠ .key "enter" := fun h => hq (by simp [h])
    have h1 := commitModel_selected_unchanged m msg hmsg
    have h2 := ih (commitModel.Update m msg).1 (fun h => hq (by simp [h]))
    simp only [feed]
    rw [h2, h1]

theorem quit_free_not_quit (pre : List Msg) (hpre : ∀ msg ∈ pre, ¬ quitsSelection msg) :
    ∀ (m1 : commitModel) (msg : Msg), msg ∈ pre → (commitModel.Update m1 msg).2 ≠ .Quit :=
  fun m1 msg hmsg hc => hpre msg hmsg ((commitModel_quit_iff m1 msg).mp hc)

theorem applied_selection (ahead : Nat) (m : commitModel) (pre rest : List Msg) (k : Msg)
    (hpre : ∀ msg ∈ pre, ¬ quitsSelection msg) (hk : quitsSelection k) :
    applied commitModel.Update ahead m (pre ++ k :: rest) = pre ++ k :: rest.take ahead := by
  rw [applied_append commitModel.Update ahead pre (k :: rest) m (quit_free_not_quit pre hpre),
    applied_quit commitModel.Update ahead _ k rest ((commitModel_quit_iff _ k).mpr hk)]

theorem runProgram_quit_free (ahead : Nat) (m : commitModel) (pre : List Msg)
    (hpre : ∀ msg ∈ pre, ¬ quitsSelection msg) :
    runProgram commitModel.Update ahead m pre = feed commitModel.Update m pre := by
  have h := applied_append commitModel.Update ahead pre [] m (quit_free_not_quit pre hpre)
  simp only [List.append_nil, applied] at h
  unfold runProgram
  rw [h]

theorem runProgram_quit_key (m : commitModel) (pre rest : List Msg) (k : Msg)
    (hpre : ∀ msg ∈ pre, ¬ quitsSelection msg) (hk : quitsSelection k) :
    runProgram commitModel.Update 0 m (pre ++ k :: rest) =
      (commitModel.Update (feed commitModel.Update m pre) k).1 := by
  unfold runProgram
  rw [applied_selection 0 m pre rest k hpre hk, feed_append]
  rfl

/-- After any sequence of messages the selection is "none" or the index of an option. -/
theorem feed_selection_valid (choices : List String) (hne : choices ≠ [])
    (msgs : List Msg) :
    (feed commitModel.Update (initialCommitModel choices) msgs).selected = -1 ∨
    (0 ≤ (feed commitModel.Update (initialCommitModel choices) msgs).selected ∧
      (feed commitModel.Update (initialCommitModel choices) msgs).selected <
        (choices.length : Int) ∧
      ∃ s, index? choices
        (feed commitModel.Update (initialCommitModel choices) msgs).selected = some s) := by
  have h := (feed_bounds choices msgs).2
  unfold selectedInRange at h
  rw [feed_choices] at h
  have hlen := List.length_pos.mpr hne
  rcases h with h | ⟨h0, h1⟩
  · exact Or.inl h
  · right
    have hc : (initialCommitModel choices).choices = choices := rfl
    rw [hc] at h1
    have hlt : (feed commitModel.Update (initialCommitModel choices) msgs).selected <
        (choices.length : Int) := by omega
    refine ⟨h0, hlt, ?_⟩
    unfold index?
    have hn : ((feed commitModel.Update (initialCommitModel choices) msgs).selected).toNat <
        choices.length := by omega
    simp only [not_lt.mpr h0, if_false]
    exact ⟨choices.get ⟨_, hn⟩, List.get?_eq_get hn⟩

/-- C9 (counterexample): "q" does not end the loop leaving the selection at -1, and
"enter" does not end it with the cursor it saw: with the keys "q", enter read together
the caller reads the selection 0, and with enter, "j", enter read together it reads 1
and the commit flow commits the second suggestion. -/
theorem C9_keys_behind_quit_counterexample :
    (runProgram commitModel.Update 1 (initialCommitModel ["fix: a", "fix: b"])
      [.key "q", .key "enter"]).selected = 0 ∧
    (runProgram commitModel.Update 1 (initialCommitModel ["fix: a", "fix: b"])
      [.key "q", .key "enter"]).selected ≠ -1 ∧
    (runProgram fallbackModel.Update 1 initialFallbackModel
      [.key "q", .key "enter"]).selected ≠ -1 ∧
    (commitModel.Update (initialCommitModel ["fix: a", "fix: b", "docs: c", customOption])
      (.key "enter")).1.selected = 0 ∧
    (runProgram commitModel.Update 2
      (initialCommitModel ["fix: a", "fix: b", "docs: c", customOption])
      [.key "enter", .key "j", .key "enter"]).selected = 1 ∧
    gitInvocations (commitRunE typeAheadWorld (demoApp openAIComplete) "").1 =
      [["commit", "-m", "fix: b"]] := by
  refine ⟨by decide, by decide, by decide, by decide, by decide, by decide⟩

/-- C9 (amended): for every non-empty option list and every sequence of messages applied
to a selection model from its initial state, the selection the caller reads is -1 or a
valid 0-based index into the original option list, which the model carries unchanged;
"enter" sets `selected` to the cursor and asks the loop to end (returns `tea.Quit`); "q"
and "ctrl+c" ask the loop to end with the model as it is; these are the only messages
that ask for the end, no message other than "enter" changes `selected`, and no message
changes the option list. The loop applies the messages up to the first that asks for the
end and those it has read ahead of the quit message, so the selection read is the cursor
at the last "enter" applied, and -1 when no "enter" was applied; when nothing is read
ahead, "enter" ends the loop with the cursor selected and "q" or "ctrl+c" ends it with
the selection still -1. -/
theorem C9_selection_is_none_or_valid_index (choices : List String) (hne : choices ≠ [])
    (msgs : List Msg) (ahead : Nat) :
    ((runProgram commitModel.Update ahead (initialCommitModel choices) msgs).selected = -1 ∨
      (0 ≤ (runProgram commitModel.Update ahead (initialCommitModel choices) msgs).selected ∧
        (runProgram commitModel.Update ahead (initialCommitModel choices) msgs).selected <
          (choices.length : Int) ∧
        ∃ s, index? choices
          (runProgram commitModel.Update ahead (initialCommitModel choices) msgs).selected =
            some s)) ∧
    (runProgram commitModel.Update ahead (initialCommitModel choices) msgs).choices = choices ∧
    ((feed commitModel.Update (initialCommitModel choices) msgs).selected = -1 ∨
      (0 ≤ (feed commitModel.Update (initialCommitModel choices) msgs).selected ∧
        (feed commitModel.Update (initialCommitModel choices) msgs).selected <
          (choices.length : Int) ∧
        ∃ s, index? choices
          (feed commitModel.Update (initialCommitModel choices) msgs).selected = some s)) ∧
    (feed commitModel.Update (initialCommitModel choices) msgs).choices = choices ∧
    ((runProgram fallbackModel.Update ahead initialFallbackModel msgs).selected = -1 ∨
      (0 ≤ (runProgram fallbackModel.Update ahead initialFallbackModel msgs).selected ∧
        (runProgram fallbackModel.Update ahead initialFallbackModel msgs).selected <
          (initialFallbackModel.options.length : Int) ∧
        ∃ s, index? initialFallbackModel.options
          (runProgram fallbackModel.Update ahead initialFallbackModel msgs).selected =
            some s)) ∧
    (runProgram fallbackModel.Update ahead initialFallbackModel msgs).options =
      initialFallbackModel.options ∧
    ((feed fallbackModel.Update initialFallbackModel msgs).selected = -1 ∨
      (0 ≤ (feed fallbackModel.Update initialFallbackModel msgs).selected ∧
        (feed fallbackModel.Update initialFallbackModel msgs).selected <
          (initialFallbackModel.options.length : Int) ∧
        ∃ s, index? initialFallbackModel.options
          (feed fallbackModel.Update initialFallbackModel msgs).selected = some s)) ∧
    (feed fallbackModel.Update initialFallbackModel msgs).options =
      initialFallbackModel.options ∧
    (∀ m : commitModel,
      commitModel.Update m (.key "enter") = ({ m with selected := m.cursor }, .Quit)) ∧
    (∀ f : fallbackModel,
      fallbackModel.Update f (.key "enter") = ({ f with selected := f.cursor }, .Quit)) ∧
    (∀ (m : commitModel) (k : String), k = "q" ∨ k = "ctrl+c" →
      commitModel.Update m (.key k) = (m, .Quit)) ∧
    (∀ (f : fallbackModel) (k : String), k = "q" ∨ k = "ctrl+c" →
      fallbackModel.Update f (.key k) = (f, .Quit)) ∧
    (∀ (m : commitModel) (msg : Msg),
      ((commitModel.Update m msg).2 = .Quit ↔ quitsSelection msg) ∧
      (msg ≠ .key "enter" → (commitModel.Update m msg).1.selected = m.selected) ∧
      (commitModel.Update m msg).1.choices = m.choices) ∧
    (∀ (f : fallbackModel) (msg : Msg),
      ((fallbackModel.Update f msg).2 = .Quit ↔ quitsSelection msg) ∧
      (msg ≠ .key "enter" → (fallbackModel.Update f msg).1.selected = f.selected) ∧
      (fallbackModel.Update f msg).1.options = f.options) ∧
    (∀ (pre rest : List Msg) (k : Msg), (∀ msg ∈ pre, ¬ quitsSelection msg) →
      quitsSelection k →
      applied commitModel.Update ahead (initialCommitModel choices) (pre ++ k :: rest) =
        pre ++ k :: rest.take ahead ∧
      applied fallbackModel.Update ahead initialFallbackModel (pre ++ k :: rest) =
        pre ++ k :: rest.take ahead) ∧
    (∀ pre post : List Msg, Msg.key "enter" ∉ post →
      (feed commitModel.Update (initialCommitModel choices)
          (pre ++ .key "enter" :: post)).selected =
        (feed commitModel.Update (initialCommitModel choices) pre).cursor ∧
      (feed fallbackModel.Update initialFallbackModel (pre ++ .key "enter" :: post)).selected =
        (feed fallbackModel.Update initialFallbackModel pre).cursor) ∧
    (Msg.key "enter" ∉ msgs →
      (feed commitModel.Update (initialCommitModel choices) msgs).selected = -1 ∧
      (feed fallbackModel.Update initialFallbackModel msgs).selected = -1) ∧
    (∀ pre rest : List Msg, (∀ msg ∈ pre, ¬ quitsSelection msg) →
      (runProgram commitModel.Update 0 (initialCommitModel choices)
          (pre ++ .key "enter" :: rest)).selected =
        (runProgram commitModel.Update 0 (initialCommitModel choices) pre).cursor ∧
      (∀ k, k = "q" ∨ k = "ctrl+c" →
        (runProgram commitModel.Update 0 (initialCommitModel choices)
          (pre ++ .key k :: rest)).selected = -1)) ∧
    (∀ pre rest : List Msg, (∀ msg ∈ pre, ¬ quitsSelection msg) →
      (runProgram fallbackModel.Update 0 initialFallbackModel
          (pre ++ .key "enter" :: rest)).selected =
        (runProgram fallbackModel.Update 0 initialFallbackModel pre).cursor ∧
      (∀ k, k = "q" ∨ k = "ctrl+c" →
        (runProgram fallbackModel.Update 0 initialFallbackModel
          (pre ++ .key k :: rest)).selected = -1)) := by
  have hEnter : ∀ m : commitModel,
      commitModel.Update m (.key "enter") = ({ m with selected := m.cursor }, .Quit) := by
    intro m
    simp [commitModel.Update]
  have hQ : ∀ (m : commitModel) (k : String), k = "q" ∨ k = "ctrl+c" →
      commitModel.Update m (.key k) = (m, .Quit) := by
    intro m k hk
    rcases hk with h | h <;> subst h <;> simp [commitModel.Update]
  have hNoEnter : ∀ (pre : List Msg), (∀ msg ∈ pre, ¬ quitsSelection msg) →
      Msg.key "enter" ∉ pre := fun pre hpre hmem => hpre _ hmem (Or.inl rfl)
  have hLast : ∀ (ch : List String) (pre post : List Msg), Msg.key "enter" ∉ post →
      (feed commitModel.Update (initialCommitModel ch) (pre ++ .key "enter" :: post)).selected =
        (feed commitModel.Update (initialCommitModel ch) pre).cursor := by
    intro ch pre post hpost
    rw [feed_append]
    simp only [feed]
    rw [feed_no_enter_selected post _ hpost, hEnter]
  have hNone : ∀ (ch : List String) (l : List Msg), Msg.key "enter" ∉ l →
      (feed commitModel.Update (initialCommitModel ch) l).selected = -1 := by
    intro ch l hl
    rw [feed_no_enter_selected l _ hl]
    rfl
  have hRun : ∀ (ch : List String) (pre rest : List Msg), (∀ msg ∈ pre, ¬ quitsSelection msg) →
      (runProgram commitModel.Update 0 (initialCommitModel ch)
          (pre ++ .key "enter" :: rest)).selected =
        (runProgram commitModel.Update 0 (initialCommitModel ch) pre).cursor ∧
      (∀ k, k = "q" ∨ k = "ctrl+c" →
        (runProgram commitModel.Update 0 (initialCommitModel ch)
          (pre ++ .key k :: rest)).selected = -1) := by
    intro ch pre rest hpre
    constructor
    · rw [runProgram_quit_key _ pre rest _ hpre (Or.inl rfl), hEnter,
        runProgram_quit_free 0 _ pre hpre]
    · intro k hk
      have hqk : quitsSelection (.key k) := by
        rcases hk with h | h <;> subst h
        · exact Or.inr (Or.inl rfl)
        · exact Or.inr (Or.inr rfl)
      rw [runProgram_quit_key _ pre rest _ hpre hqk, hQ _ k hk]
      exact hNone ch pre (hNoEnter pre hpre)
  have hsimR : ∀ (n : Nat) (l : List Msg),
      (runProgram fallbackModel.Update n initialFallbackModel l).toCommit =
        runProgram commitModel.Update n (initialCommitModel initialFallbackModel.options) l :=
    fun n l => fallback_runProgram n l initialFallbackModel
  have hsimF : ∀ l : List Msg,
      (feed fallbackModel.Update initialFallbackModel l).toCommit =
        feed commitModel.Update (initialCommitModel initialFallbackModel.options) l :=
    fun l => fallback_feed l initialFallbackModel
  have hselR : ∀ (n : Nat) (l : List Msg),
      (runProgram fallbackModel.Update n initialFallbackModel l).selected =
        (runProgram commitModel.Update n (initialCommitModel initialFallbackModel.options)
          l).selected :=
    fun n l => congrArg commitModel.selected (hsimR n l)
  have hcurR : ∀ (n : Nat) (l : List Msg),
      (runProgram fallbackModel.Update n initialFallbackModel l).cursor =
        (runProgram commitModel.Update n (initialCommitModel initialFallbackModel.options)
          l).cursor :=
    fun n l => congrArg commitModel.cursor (hsimR n l)
  have hselF : ∀ l : List Msg, (feed fallbackModel.Update initialFallbackModel l).selected =
      (feed commitModel.Update (initialCommitModel initialFallbackModel.options) l).selected :=
    fun l => congrArg commitModel.selected (hsimF l)
  have hcurF : ∀ l : List Msg, (feed fallbackModel.Update initialFallbackModel l).cursor =
      (feed commitModel.Update (initialCommitModel initialFallbackModel.options) l).cursor :=
    fun l => congrArg commitModel.cursor (hsimF l)
  refine ⟨feed_selection_valid choices hne _, runProgram_choices ahead msgs _,
    feed_selection_valid choices hne msgs, feed_choices msgs _, ?_, ?_, ?_, ?_, hEnter, ?_,
    hQ, ?_, ?_, ?_, ?_, ?_, ?_, hRun choices, ?_⟩
  · rw [hselR]
    exact feed_selection_valid initialFallbackModel.options (by decide) _
  · have h := congrArg commitModel.choices (hsimR ahead msgs)
    rw [runProgram_choices] at h
    exact h
  · rw [hselF]
    exact feed_selection_valid initialFallbackModel.options (by decide) msgs
  · have h := congrArg commitModel.choices (hsimF msgs)
    rw [feed_choices] at h
    exact h
  · intro f
    simp [fallbackModel.Update]
  · intro f k hk
    rcases hk with h | h <;> subst h <;> simp [fallbackModel.Update]
  · intro m msg
    exact ⟨commitModel_quit_iff m msg, commitModel_selected_unchanged m msg,
      commitModel_choices m msg⟩
  · intro f msg
    obtain ⟨h1, h2⟩ := fallback_simulates f msg
    refine ⟨?_, ?_, ?_⟩
    · rw [h2]
      exact commitModel_quit_iff _ msg
    · intro hmsg
      have h := commitModel_selected_unchanged f.toCommit msg hmsg
      rw [← h1] at h
      exact h
    · have h := commitModel_choices f.toCommit msg
      rw [← h1] at h
      exact h
  · intro pre rest k hpre hk
    refine ⟨applied_selection ahead _ pre rest k hpre hk, ?_⟩
    rw [fallback_applied]
    exact applied_selection ahead _ pre rest k hpre hk
  · intro pre post hpost
    refine ⟨hLast choices pre post hpost, ?_⟩
    rw [hselF, hcurF]
    exact hLast _ pre post hpost
  · intro hmsgs
    refine ⟨hNone choices msgs hmsgs, ?_⟩
    rw [hselF]
    exact hNone _ msgs hmsgs
  · intro pre rest hpre
    have h := hRun initialFallbackModel.options pre rest hpre
    refine ⟨?_, ?_⟩
    · rw [hselR, hcurR]
      exact h.1
    · intro k hk
      rw [hselR]
      exact h.2 k hk

/-- C9 (amended) at a concrete input: down then enter on a two-option list selects
index 1, whatever is read ahead. -/
theorem C9_selection_is_none_or_valid_index_witness :
    (["a", "b"] : List String) ≠ [] ∧
    (runProgram commitModel.Update 3 (initialCommitModel ["a", "b"])
      [.key "down", .key "enter"]).selected = 1 ∧
    (runProgram commitModel.Update 3 (initialCommitModel ["a", "b"])
      [.key "down", .key "enter"]).choices = ["a", "b"] :=
  ⟨by decide, by decide,
    (C9_selection_is_none_or_valid_index ["a", "b"] (by decide)
      [.key "down", .key "enter"] 3).2.1⟩

/-! ### The credential wizard -/

theorem lookup_mapSet_self (m : StringMap) (k v : String) :
    (mapSet m k v).lookup k = some v := by
  simp [mapSet, List.lookup]

theorem lookup_filter_ne (m : StringMap) (k k1 : String) (h : k1 ≠ k) :
    (m.filter (fun p => p.1 ≠ k)).lookup k1 = m.lookup k1 := by
  induction m with
  | nil => rfl
  | cons p rest ih =>
    obtain ⟨a, b⟩ := p
    by_cases ha : a = k
    · subst ha
      have hne : (k1 == a) = false := by simpa using h
      simp only [List.filter, List.lookup, hne, ne_eq, not_true_eq_false, decide_False]
      exact ih
    · by_cases hk : k1 = a
      · subst hk
        simp [List.filter, ha, List.lookup]
      · have hne : (k1 == a) = false := by simpa using hk
        simp only [List.filter, List.lookup, hne, ne_eq, ha, not_false_eq_true, decide_True]
        exact ih

theorem lookup_mapSet_ne (m : StringMap) (k v k1 : String) (h : k1 ≠ k) :
    (mapSet m k v).lookup k1 = m.lookup k1 := by
  have hne : (k1 == k) = false := by simpa using h
  simp only [mapSet, List.lookup, hne]
  exact lookup_filter_ne m k k1 h

theorem lastSubmitted_append_self (subs : List (String × String)) (k v : String) :
    lastSubmitted (subs ++ [(k, v)]) k = some v := by
  simp [lastSubmitted, List.lookup]

theorem lastSubmitted_append_ne (subs : List (String × String)) (k v k1 : String)
    (h : k1 ≠ k) : lastSubmitted (subs ++ [(k, v)]) k1 = lastSubmitted subs k1 := by
  have hne : (k1 == k) = false := by simpa using h
  simp [lastSubmitted, List.lookup, hne]

theorem TrimSpace_empty : TrimSpace "" = "" := by decide

theorem inv_updateInput (inputUpdate : InputUpdate) (subs : List (String × String))
    (m : setupModel) (msg : Msg) (h : WizardInv subs m) :
    WizardInv subs (m.updateInput inputUpdate msg).1 := by
  unfold setupModel.updateInput
  split_ifs
  · exact ⟨h.done_iff, h.answers_submitted, h.provider_known, h.index_zero, h.input_index,
      h.all_recorded⟩
  · exact h

theorem submission_none_of_step (m : setupModel) (msg : Msg)
    (h : m.step ≠ .stepInputCredential) : submission (m, msg) = none := by
  simp [submission, h]

theorem submission_none_of_msg (m : setupModel) (msg : Msg)
    (h : msg ≠ .key "enter") : submission (m, msg) = none := by
  simp [submission, h]

theorem inv_chooseProvider (subs : List (String × String)) (m : setupModel) (provider : String)
    (hp : provider = "openai" ∨ provider = "azure_openai")
    (hs : m.step = .stepProviderSelection) (h : WizardInv subs m) :
    WizardInv subs (m.chooseProvider provider) := by
  have hidx := h.index_zero hs
  have hdone : ¬ (m.done = true) := fun hd => by
    have := h.done_iff.mp hd
    rw [hs] at this
    cases this
  refine ⟨?_, h.answers_submitted, fun _ => hp, ?_, ?_, ?_⟩
  · simp only [setupModel.chooseProvider]
    constructor
    · intro hd
      exact absurd hd hdone
    · intro hd
      cases hd
  · intro hc
    simp [setupModel.chooseProvider] at hc
  · intro _
    show m.fieldIndex < (getFieldsForProvider provider).length ∧
      (getFieldsForProvider provider).getD 0 "" =
        (getFieldsForProvider provider).getD m.fieldIndex "" ∧
      ∀ j, j < m.fieldIndex →
        ∃ v, m.answers.lookup ((getFieldsForProvider provider).getD j "") = some v
    rw [hidx]
    refine ⟨?_, rfl, ?_⟩
    · rcases hp with rfl | rfl <;> decide
    · intro j hj
      omega
  · intro hc
    simp [setupModel.chooseProvider] at hc

theorem inv_reset (subs : List (String × String)) (m : setupModel)
    (hs : m.step ≠ .stepDone) (h : WizardInv subs m) :
    WizardInv subs { m with step := .stepProviderSelection, fieldIndex := 0,
                            input := m.input.SetValue "" } := by
  refine ⟨?_, h.answers_submitted, ?_, fun _ => rfl, ?_, ?_⟩
  · constructor
    · intro hd
      exact absurd (h.done_iff.mp hd) hs
    · intro hd
      cases hd
  · intro hc
    exact absurd rfl hc
  · intro hc
    cases hc
  · intro hc
    rcases hc with hc | hc <;> cases hc

theorem inv_initial (subs : List (String × String)) : WizardInv subs initialSetupModel := by
  refine ⟨?_, ?_, ?_, fun _ => rfl, ?_, ?_⟩
  · constructor <;> intro hd <;> cases hd
  · intro label v hl
    cases hl
  · intro hc
    exact absurd rfl hc
  · intro hc
    cases hc
  · intro hc
    rcases hc with hc | hc <;> cases hc

theorem lookup_mapSet_some (m : StringMap) (k v k1 : String)
    (h : k1 = k ∨ ∃ w, m.lookup k1 = some w) : ∃ w, (mapSet m k v).lookup k1 = some w := by
  by_cases hk : k1 = k
  · subst hk
    exact ⟨v, lookup_mapSet_self m k1 v⟩
  · rw [lookup_mapSet_ne m k v k1 hk]
    rcases h with h | h
    · exact absurd h hk
    · exact h

theorem answers_after_record (subs : List (String × String)) (m : setupModel)
    (hs : m.step = .stepInputCredential) (hv : TrimSpace m.input.value ≠ "")
    (h : WizardInv subs m) :
    (∀ label v, (mapSet m.answers m.currentField m.input.value).lookup label = some v →
      lastSubmitted (subs ++ [(displayedField m, m.input.value)]) label = some v ∧
        TrimSpace v ≠ "") ∧
    (∀ j, j ≤ m.fieldIndex →
      ∃ v, (mapSet m.answers m.currentField m.input.value).lookup
        ((getFieldsForProvider m.provider).getD j "") = some v) := by
  obtain ⟨_, hcf, hprev⟩ := h.input_index hs
  have hd : displayedField m = m.currentField := by
    unfold displayedField
    exact hcf.symm
  constructor
  · intro label v hl
    rw [hd]
    by_cases hk : label = m.currentField
    · subst hk
      rw [lookup_mapSet_self] at hl
      injection hl with hl
      subst hl
      exact ⟨lastSubmitted_append_self _ _ _, hv⟩
    · rw [lookup_mapSet_ne _ _ _ _ hk] at hl
      rw [lastSubmitted_append_ne _ _ _ _ hk]
      exact h.answers_submitted label v hl
  · intro j hj
    apply lookup_mapSet_some
    rcases Nat.lt_or_eq_of_le hj with hlt | heq
    · exact Or.inr (hprev j hlt)
    · left
      rw [heq, hcf]

theorem mem_fields_getD (provider f : String) (hf : f ∈ getFieldsForProvider provider) :
    ∃ j, j < (getFieldsForProvider provider).length ∧
      (getFieldsForProvider provider).getD j "" = f := by
  obtain ⟨n, hn, hget⟩ := List.getElem_of_mem hf
  refine ⟨n, hn, ?_⟩
  rw [List.getD_eq_getElem _ _ hn]
  exact hget

/-- One step of the wizard keeps the invariant, the submission of the step being added
to the submissions so far. -/
theorem wizard_step (inputUpdate : InputUpdate) (subs : List (String × String))
    (m : setupModel) (msg : Msg) (h : WizardInv subs m) :
    WizardInv (subs ++ (submission (m, msg)).toList)
      (setupModel.Update inputUpdate m msg).1 := by
  cases msg with
  | other =>
    rw [submission_none_of_msg m _ (by decide)]
    simp only [Option.toList, List.append_nil, setupModel.Update]
    exact inv_updateInput inputUpdate subs m _ h
  | key s =>
    cases hstep : m.step with
    | stepProviderSelection =>
      rw [submission_none_of_step m _ (by rw [hstep]; decide)]
      simp only [Option.toList, List.append_nil, setupModel.Update, hstep]
      split_ifs
      · exact inv_chooseProvider subs m _ (Or.inl rfl) hstep h
      · exact inv_chooseProvider subs m _ (Or.inr rfl) hstep h
      · exact h
      · exact inv_updateInput inputUpdate subs m _ h
    | stepInputCredential =>
      by_cases hs : s = "enter"
      · subst hs
        by_cases hv : TrimSpace m.input.value = ""
        · have hsub : submission (m, Msg.key "enter") = none := by
            simp [submission, hv]
          rw [hsub]
          simp only [Option.toList, List.append_nil, setupModel.Update, hstep, hv, if_true]
          exact h
        · have hsub : submission (m, Msg.key "enter") =
              some (displayedField m, m.input.value) := by
            simp [submission, hv, hstep]
          rw [hsub]
          obtain ⟨ha, hrec⟩ := answers_after_record subs m hstep hv h
          have hdone : ¬ (m.done = true) := fun hd => by
            have := h.done_iff.mp hd
            rw [hstep] at this
            cases this
          have hprov := h.provider_known (by rw [hstep]; decide)
          simp only [Option.toList, setupModel.Update, hstep, hv, if_true, if_false]
          split_ifs with hge
          · refine ⟨?_, ha, fun _ => hprov, ?_, ?_, ?_⟩
            · constructor
              · intro hd
                exact absurd hd hdone
              · intro hd
                cases hd
            · intro hc
              cases hc
            · intro hc
              cases hc
            · intro _ f hf
              obtain ⟨j, hj, hget⟩ := mem_fields_getD m.provider f hf
              have := hrec j (by simp only [ge_iff_le] at hge; omega)
              rw [hget] at this
              exact this
          · refine ⟨?_, ha, fun _ => hprov, ?_, ?_, ?_⟩
            · constructor
              · intro hd
                exact absurd hd hdone
              · intro hd
                cases hd
            · intro hc
              cases hc
            · intro _
              refine ⟨by simp only [ge_iff_le, not_le] at hge; exact hge, rfl, ?_⟩
              intro j hj
              have hj2 : j < m.fieldIndex + 1 := hj
              exact hrec j (by omega)
            · intro hc
              rcases hc with hc | hc <;> cases hc
      · rw [submission_none_of_msg m _ (by simpa using hs)]
        simp only [Option.toList, List.append_nil, setupModel.Update, hstep, hs, if_false]
        split_ifs
        · exact inv_reset subs m (by rw [hstep]; decide) h
        · exact inv_updateInput inputUpdate subs m _ h
    | stepConfirm =>
      rw [submission_none_of_step m _ (by rw [hstep]; decide)]
      simp only [Option.toList, List.append_nil, setupModel.Update, hstep]
      split_ifs
      · refine ⟨?_, h.answers_submitted, fun _ => h.provider_known (by rw [hstep]; decide),
          ?_, ?_, fun _ => h.all_recorded (Or.inl hstep)⟩
        · exact ⟨fun _ => rfl, fun _ => rfl⟩
        · intro hc
          cases hc
        · intro hc
          cases hc
      · exact inv_initial subs
      · exact inv_reset subs m (by rw [hstep]; decide) h
      · exact inv_updateInput inputUpdate subs m _ h
    | stepDone =>
      rw [submission_none_of_step m _ (by rw [hstep]; decide)]
      simp only [Option.toList, List.append_nil, setupModel.Update, hstep]
      exact inv_updateInput inputUpdate subs m _ h

theorem filterMap_cons_toList {α β : Type} (f : α → Option β) (a : α) (l : List α) :
    (a :: l).filterMap f = (f a).toList ++ l.filterMap f := by
  cases h : f a <;> simp [List.filterMap_cons, h, Option.toList]

theorem wizard_feed (inputUpdate : InputUpdate) (msgs : List Msg) :
    ∀ (m : setupModel) (subs : List (String × String)), WizardInv subs m →
      WizardInv
        (subs ++ (feedSteps (setupModel.Update inputUpdate) m msgs).filterMap submission)
        (feed (setupModel.Update inputUpdate) m msgs) := by
  induction msgs with
  | nil =>
    intro m subs h
    simpa [feedSteps, feed] using h
  | cons msg rest ih =>
    intro m subs h
    have h1 := wizard_step inputUpdate subs m msg h
    have h2 := ih (setupModel.Update inputUpdate m msg).1 _ h1
    simp only [feedSteps, feed, filterMap_cons_toList, ← List.append_assoc]
    exact h2

/-- The model after any sequence of messages applied from the initial model satisfies
the invariant for the submissions made on the way. -/
theorem wizard_final (inputUpdate : InputUpdate) (msgs : List Msg) :
    WizardInv (submissions inputUpdate msgs)
      (feed (setupModel.Update inputUpdate) initialSetupModel msgs) := by
  have h := wizard_feed inputUpdate msgs initialSetupModel [] (inv_initial [])
  simpa [submissions] using h

theorem mapGet_of_lookup (m : StringMap) (k v : String) (h : m.lookup k = some v) :
    mapGet m k = v := by
  simp [mapGet, h]

theorem ne_empty_of_not_blank (v : String) (h : TrimSpace v ≠ "") : v ≠ "" := by
  intro hv
  subst hv
  exact h TrimSpace_empty

theorem renderAll_eq_feed {M β : Type} (update : M → Msg → M × Cmd) (view : M → Option β)
    (msgs : List Msg) :
    ∀ m m1 : M, renderAll update view m msgs = some m1 → m1 = feed update m msgs := by
  induction msgs with
  | nil =>
    intro m m1 h
    simp only [renderAll, Option.some.injEq] at h
    exact h.symm
  | cons msg rest ih =>
    intro m m1 h
    simp only [renderAll] at h
    cases hv : view (update m msg).1 with
    | none =>
      rw [hv] at h
      cases h
    | some b =>
      rw [hv] at h
      exact ih _ m1 h

/-- A model returned by `p.Run()` is the model after the messages the loop applied. -/
theorem teaRun_ok {M β : Type} (update : M → Msg → M × Cmd) (view : M → Option β)
    (panicText : String) (ahead : Nat) (init m : M) (events : Except String (List Msg))
    (h : teaRun update view panicText ahead init events = .ok m) :
    ∃ msgs, events = .ok msgs ∧ m = runProgram update ahead init msgs := by
  cases events with
  | error e => cases h
  | ok msgs =>
    refine ⟨msgs, rfl, ?_⟩
    simp only [teaRun] at h
    cases hv : view init with
    | none =>
      rw [hv] at h
      cases h
    | some b =>
      rw [hv] at h
      cases hr : renderAll update view init (applied update ahead init msgs) with
      | none =>
        rw [hr] at h
        cases h
      | some m1 =>
        rw [hr] at h
        injection h with h
        subst h
        exact renderAll_eq_feed update view _ init m1 hr

/-- C10 (counterexample): a run can end in an error that is not "setup cancelled" and
without a configuration. With provider "1" and the key `sk` the confirmation screen
cannot be rendered, `p.Run()` fails, and `RunSetup` returns "setup error: ..." whether
the user goes on to confirm or not; and when the program itself fails `RunSetup` returns
"setup error: ..." as well. -/
theorem C10_setup_error_counterexample :
    (feed (setupModel.Update appendInput) initialSetupModel
      [.key "1", .key "s", .key "k", .key "enter"]).step = .stepConfirm ∧
    setupModel.View demoViewEnv (feed (setupModel.Update appendInput) initialSetupModel
      [.key "1", .key "s", .key "k", .key "enter"]) = none ∧
    RunSetup appendInput demoViewEnv demoPanicText 0
        (.ok [.key "1", .key "s", .key "k", .key "enter", .key "y"]) =
      .error "setup error: program was killed: program experienced a panic" ∧
    RunSetup appendInput demoViewEnv demoPanicText 0
        (.ok [.key "1", .key "s", .key "k", .key "enter"]) =
      .error "setup error: program was killed: program experienced a panic" ∧
    RunSetup appendInput demoViewEnv demoPanicText 0 (.error "could not open a new TTY") =
      .error "setup error: could not open a new TTY" ∧
    ("setup error: program was killed: program experienced a panic" : String) ≠
      "setup cancelled" ∧
    ("setup error: could not open a new TTY" : String) ≠ "setup cancelled" := by
  refine ⟨by decide, by decide, rfl, rfl, rfl, by decide, by decide⟩

/-- C10 (amended): when `p.Run()` returns a final model, `RunSetup` yields the built
configuration if that model is in `stepDone` and the error "setup cancelled" otherwise;
when `p.Run()` itself fails with an error, `RunSetup` returns "setup error: " followed by
that error and no configuration. The model `p.Run()` returns is the one after the
messages the loop applied. Every configuration `RunSetup` yields comes from a final model
in `stepDone`, has provider "openai" or "azure_openai", and each field that provider
requires is not empty, not blank, and is the value most recently submitted by the user
under that field's label. -/
theorem C10_setup_yields_complete_config (inputUpdate : InputUpdate) (env : ViewEnv)
    (panicText : String) (ahead : Nat) (events : Except String (List Msg)) :
    (∀ e, runWizard inputUpdate env panicText ahead events = .error e →
      RunSetup inputUpdate env panicText ahead events = .error ("setup error: " ++ e)) ∧
    (∀ e, events = .error e → runWizard inputUpdate env panicText ahead events = .error e) ∧
    (∀ m, runWizard inputUpdate env panicText ahead events = .ok m →
      (m.step = .stepDone →
        RunSetup inputUpdate env panicText ahead events = .ok (buildConfig m)) ∧
      (m.step ≠ .stepDone →
        RunSetup inputUpdate env panicText ahead events = .error "setup cancelled") ∧
      ∃ msgs, events = .ok msgs ∧
        m = runProgram (setupModel.Update inputUpdate) ahead initialSetupModel msgs) ∧
    (∀ cfg, RunSetup inputUpdate env panicText ahead events = .ok cfg →
      ∃ msgs m, events = .ok msgs ∧
        runWizard inputUpdate env panicText ahead events = .ok m ∧
        m = runProgram (setupModel.Update inputUpdate) ahead initialSetupModel msgs ∧
        m.step = .stepDone ∧ cfg = buildConfig m ∧
        (cfg.AIProvider = "openai" ∨ cfg.AIProvider = "azure_openai") ∧
        ∀ p ∈ requiredValues cfg, p.2 ≠ "" ∧ TrimSpace p.2 ≠ "" ∧
          lastSubmitted
            (submissions inputUpdate
              (applied (setupModel.Update inputUpdate) ahead initialSetupModel msgs))
            p.1 = some p.2) := by
  have hinv : ∀ msgs m,
      m = runProgram (setupModel.Update inputUpdate) ahead initialSetupModel msgs →
      WizardInv
        (submissions inputUpdate
          (applied (setupModel.Update inputUpdate) ahead initialSetupModel msgs)) m := by
    intro msgs m hm
    rw [hm]
    exact wizard_final inputUpdate _
  have hok : ∀ m, runWizard inputUpdate env panicText ahead events = .ok m →
      ∃ msgs, events = .ok msgs ∧
        m = runProgram (setupModel.Update inputUpdate) ahead initialSetupModel msgs :=
    fun m h => teaRun_ok _ _ panicText ahead initialSetupModel m events h
  refine ⟨?_, ?_, ?_, ?_⟩
  · intro e he
    simp only [RunSetup, he]
  · intro e he
    subst he
    rfl
  · intro m hm
    obtain ⟨msgs, hev, hrun⟩ := hok m hm
    have hi := hinv msgs m hrun
    refine ⟨?_, ?_, msgs, hev, hrun⟩
    · intro hd
      have hdone := hi.done_iff.mpr hd
      simp [RunSetup, hm, hdone]
    · intro hd
      have hdone : ¬ (m.done = true) := fun h => hd (hi.done_iff.mp h)
      simp [RunSetup, hm, hdone]
  · intro cfg hcfg
    cases hw : runWizard inputUpdate env panicText ahead events with
    | error e => simp [RunSetup, hw] at hcfg
    | ok m =>
      obtain ⟨msgs, hev, hrun⟩ := hok m hw
      have hi := hinv msgs m hrun
      by_cases hdone : m.done = true
      · have hd := hi.done_iff.mp hdone
        have hprov := hi.provider_known (by rw [hd]; decide)
        have hall := hi.all_recorded (Or.inr hd)
        have hcfg2 : cfg = buildConfig m := by
          simp only [RunSetup, hw, hdone, not_true_eq_false, if_false] at hcfg
          injection hcfg with hcfg
          exact hcfg.symm
        have hfield : ∀ f ∈ getFieldsForProvider m.provider,
            mapGet m.answers f ≠ "" ∧ TrimSpace (mapGet m.answers f) ≠ "" ∧
            lastSubmitted
              (submissions inputUpdate
                (applied (setupModel.Update inputUpdate) ahead initialSetupModel msgs))
              f = some (mapGet m.answers f) := by
          intro f hf
          obtain ⟨v, hv⟩ := hall f hf
          obtain ⟨h1, h2⟩ := hi.answers_submitted f v hv
          rw [mapGet_of_lookup _ _ _ hv]
          exact ⟨ne_empty_of_not_blank v h2, h2, h1⟩
        refine ⟨msgs, m, hev, rfl, hrun, hd, hcfg2, ?_, ?_⟩
        · rw [hcfg2]
          rcases hprov with hp | hp <;> simp [buildConfig, hp]
        · intro p hp
          rw [hcfg2] at hp
          rcases hprov with hpr | hpr
          · rw [hpr] at hfield
            simp only [requiredValues, buildConfig, hpr, if_true, List.mem_singleton] at hp
            subst hp
            exact hfield _ (by decide)
          · rw [hpr] at hfield
            have hne : ¬ ("azure_openai" = "openai") := by decide
            simp only [requiredValues, buildConfig, hpr, hne, if_false, List.mem_cons,
              List.mem_singleton, List.not_mem_nil, or_false] at hp
            rcases hp with hp | hp | hp | hp <;> subst hp <;> exact hfield _ (by decide)
      · simp [RunSetup, hw, hdone] at hcfg

/-- C10 (amended) at a concrete input: provider "1", the key typed as "s", "k", "-",
"1", enter, then "y". -/
theorem C10_setup_yields_complete_config_witness :
    RunSetup appendInput demoViewEnv demoPanicText 0
        (.ok [.key "1", .key "s", .key "k", .key "-", .key "1", .key "enter", .key "y"]) =
      .ok wizardDemoConfig ∧
    ∃ msgs m, (Except.ok [.key "1", .key "s", .key "k", .key "-", .key "1", .key "enter",
          .key "y"] : Except String (List Msg)) = .ok msgs ∧
      runWizard appendInput demoViewEnv demoPanicText 0
        (.ok [.key "1", .key "s", .key "k", .key "-", .key "1", .key "enter", .key "y"]) =
        .ok m ∧
      m = runProgram (setupModel.Update appendInput) 0 initialSetupModel msgs ∧
      m.step = .stepDone ∧ wizardDemoConfig = buildConfig m ∧
      (wizardDemoConfig.AIProvider = "openai" ∨
        wizardDemoConfig.AIProvider = "azure_openai") ∧
      ∀ p ∈ requiredValues wizardDemoConfig, p.2 ≠ "" ∧ TrimSpace p.2 ≠ "" ∧
        lastSubmitted
          (submissions appendInput
            (applied (setupModel.Update appendInput) 0 initialSetupModel msgs))
          p.1 = some p.2 :=
  ⟨rfl,
    (C10_setup_yields_complete_config appendInput demoViewEnv demoPanicText 0
      (.ok [.key "1", .key "s", .key "k", .key "-", .key "1", .key "enter",
        .key "y"])).2.2.2 wizardDemoConfig rfl⟩

theorem commitSelect_commits_suggestion (w : World) (a : App) (provided : List String)
    (msgs : List Msg) (i : Nat) (text : String) (hk : w.commitKeys = .ok msgs)
    (hsel : (runProgram commitModel.Update w.commitAhead
      (initialCommitModel (provided ++ [customOption])) msgs).selected = (i : Int))
    (hi : provided[i]? = some text) (hne : text ≠ customOption) :
    (provided ++ [customOption]).length = provided.length + 1 ∧
    (commitSelect w a provided).1 =
      [.commitPrompt (provided ++ [customOption]), .execGit a.GitCmd ["commit", "-m", text]] := by
  have hlt : i < provided.length := by
    rcases Nat.lt_or_ge i provided.length with h | h
    · exact h
    · rw [List.getElem?_eq_none h] at hi
      cases hi
  have hidx : index? (provided ++ [customOption]) (i : Int) = some text := by
    unfold index?
    have h0 : ¬ ((i : Int) < 0) := by omega
    simp only [h0, if_false, Int.toNat_ofNat, List.get?_eq_getElem?]
    rw [List.getElem?_append_left hlt]
    exact hi
  have hsel1 : ¬ ((i : Int) = -1) := by omega
  refine ⟨by simp, ?_⟩
  simp only [commitSelect, hk, hsel, hsel1, if_false, hidx, hne, ExecGit]
  rfl

/-- C13: in `stepInputCredential`, "enter" on a buffer that is empty, or empty after
whitespace trimming, returns the wizard unchanged (same step, current field, field
index, answers, buffer) with no command, and submits nothing. -/
theorem C13_blank_enter_is_ignored (inputUpdate : InputUpdate) (m : setupModel)
    (hs : m.step = .stepInputCredential)
    (hv : m.input.value = "" ∨ TrimSpace m.input.value = "") :
    setupModel.Update inputUpdate m (.key "enter") = (m, .nil) ∧
    submission (m, .key "enter") = none := by
  have hb : TrimSpace m.input.value = "" := by
    rcases hv with h | h
    · rw [h]
      exact TrimSpace_empty
    · exact h
  constructor
  · simp only [setupModel.Update, hs, hb, if_true]
  · simp [submission, hb]

/-- C13 at a concrete input: after provider "2", "enter" on the empty buffer leaves the
wizard in `stepInputCredential` at the field "Azure Endpoint". -/
theorem C13_blank_enter_is_ignored_witness :
    (setupModel.Update appendInput initialSetupModel (.key "2")).1.step =
      .stepInputCredential ∧
    (setupModel.Update appendInput initialSetupModel (.key "2")).1.currentField =
      "Azure Endpoint" ∧
    (setupModel.Update appendInput initialSetupModel (.key "2")).1.input.value = "" ∧
    setupModel.Update appendInput
        (setupModel.Update appendInput initialSetupModel (.key "2")).1 (.key "enter") =
      ((setupModel.Update appendInput initialSetupModel (.key "2")).1, .nil) :=
  ⟨by decide, by decide, by decide,
    (C13_blank_enter_is_ignored appendInput
      (setupModel.Update appendInput initialSetupModel (.key "2")).1 (by decide)
      (Or.inl (by decide))).1⟩

/-- C15: in `stepConfirm`, "n" or "N" returns the model `initialSetupModel()` builds
(step `stepProviderSelection`, no provider, no current field, field index 0, empty
buffer, empty answers map, not done) with no command, so the wizard goes on. -/
theorem C15_negative_confirm_restarts (inputUpdate : InputUpdate) (m : setupModel)
    (k : String) (hs : m.step = .stepConfirm) (hk : k = "n" ∨ k = "N") :
    setupModel.Update inputUpdate m (.key k) = (initialSetupModel, .nil) ∧
    (setupModel.Update inputUpdate m (.key k)).2 ≠ .Quit ∧
    initialSetupModel.step = .stepProviderSelection ∧
    initialSetupModel.provider = "" ∧
    initialSetupModel.currentField = "" ∧
    initialSetupModel.fieldIndex = 0 ∧
    initialSetupModel.input.value = "" ∧
    initialSetupModel.answers = [] ∧
    (∀ label, mapGet initialSetupModel.answers label = "") ∧
    initialSetupModel.done = false := by
  have hu : setupModel.Update inputUpdate m (.key k) = (initialSetupModel, .nil) := by
    have hk2 : ¬ (k = "y" ∨ k = "Y" ∨ k = "enter") := by
      rcases hk with h | h <;> subst h <;> decide
    simp only [setupModel.Update, hs, hk, hk2, if_true, if_false]
  refine ⟨hu, ?_, rfl, rfl, rfl, rfl, rfl, rfl, fun _ => rfl, rfl⟩
  rw [hu]
  decide

/-- C15 at a concrete input: the Azure run with four recorded answers, then "n". -/
theorem C15_negative_confirm_restarts_witness :
    azureConfirmModel.step = .stepConfirm ∧
    azureConfirmModel.answers.length = 4 ∧
    setupModel.Update appendInput azureConfirmModel (.key "n") = (initialSetupModel, .nil) :=
  ⟨by decide, by decide,
    (C15_negative_confirm_restarts appendInput azureConfirmModel "n" (by decide)
      (Or.inl rfl)).1⟩

theorem edit_changes_input_only (inputUpdate : InputUpdate) (m : setupModel) (msg : Msg)
    (hs : m.step = .stepInputCredential) (h1 : msg ≠ .key "enter") (h2 : msg ≠ .key "esc") :
    setupModel.Update inputUpdate m msg =
      (m.edited (inputUpdate m.input msg).1, (inputUpdate m.input msg).2) := by
  cases msg with
  | other => simp [setupModel.Update, setupModel.updateInput, hs, setupModel.edited]
  | key s =>
    have h3 : s ≠ "enter" := fun h => h1 (by rw [h])
    have h4 : s ≠ "esc" := fun h => h2 (by rw [h])
    simp [setupModel.Update, setupModel.updateInput, hs, setupModel.edited, h3, h4]

theorem submitAll_append (inputUpdate : InputUpdate) (l1 l2 : List textinputModel) :
    ∀ m : setupModel, submitAll inputUpdate m (l1 ++ l2) =
      submitAll inputUpdate (submitAll inputUpdate m l1) l2 := by
  induction l1 with
  | nil => intro m; rfl
  | cons t l1 ih =>
    intro m
    simp only [List.cons_append, submitAll]
    exact ih _

theorem fields_nodup (provider : String) : (getFieldsForProvider provider).Nodup := by
  unfold getFieldsForProvider
  split_ifs <;> decide

theorem fields_getD_ne (provider : String) (j i : Nat) (hji : j < i)
    (hi : i < (getFieldsForProvider provider).length) :
    (getFieldsForProvider provider).getD j "" ≠ (getFieldsForProvider provider).getD i "" := by
  have hj : j < (getFieldsForProvider provider).length := by omega
  rw [List.getD_eq_getElem _ _ hj, List.getD_eq_getElem _ _ hi]
  intro h
  have := ((fields_nodup provider).getElem_inj_iff).mp h
  omega

/-- One submission of a value that is not blank: it is recorded under the current field,
the buffer is cleared, the field cursor advances, and the wizard moves to the next field
or, after the last one, to the confirmation. -/
theorem submit_step (inputUpdate : InputUpdate) (m : setupModel) (t : textinputModel)
    (hs : m.step = .stepInputCredential) (hv : TrimSpace t.value ≠ "") :
    (setupModel.Update inputUpdate (m.edited t) (.key "enter")).1.answers =
      mapSet m.answers m.currentField t.value ∧
    (setupModel.Update inputUpdate (m.edited t) (.key "enter")).1.input.value = "" ∧
    (setupModel.Update inputUpdate (m.edited t) (.key "enter")).1.provider = m.provider ∧
    (setupModel.Update inputUpdate (m.edited t) (.key "enter")).1.fieldIndex =
      m.fieldIndex + 1 ∧
    (m.fieldIndex + 1 < (getFieldsForProvider m.provider).length →
      (setupModel.Update inputUpdate (m.edited t) (.key "enter")).1.step =
        .stepInputCredential ∧
      (setupModel.Update inputUpdate (m.edited t) (.key "enter")).1.currentField =
        (getFieldsForProvider m.provider).getD (m.fieldIndex + 1) "") ∧
    ((getFieldsForProvider m.provider).length ≤ m.fieldIndex + 1 →
      (setupModel.Update inputUpdate (m.edited t) (.key "enter")).1.step = .stepConfirm) := by
  simp only [setupModel.Update, setupModel.edited, hs, hv, if_true, if_false]
  by_cases hge : m.fieldIndex + 1 ≥ (getFieldsForProvider m.provider).length
  · simp only [hge, if_true]
    refine ⟨trivial, rfl, trivial, trivial, ?_, fun _ => trivial⟩
    intro h
    omega
  · simp only [hge, if_false]
    refine ⟨trivial, rfl, trivial, trivial, fun _ => ⟨trivial, trivial⟩, ?_⟩
    intro h
    exact h.elim

theorem afterSubmissions_step (inputUpdate : InputUpdate) (provider : String)
    (ts : List textinputModel) (i : Nat) (m : setupModel) (t : textinputModel)
    (h : AfterSubmissions provider ts i m) (hi : i < (getFieldsForProvider provider).length)
    (ht : ts[i]? = some t) (hv : TrimSpace t.value ≠ "") :
    AfterSubmissions provider ts (i + 1)
      (setupModel.Update inputUpdate (m.edited t) (.key "enter")).1 := by
  obtain ⟨hstep, hcf⟩ := h.more hi
  obtain ⟨ha, hval, hprov, hidx, hmore, hlast⟩ := submit_step inputUpdate m t hstep hv
  rw [h.provider_eq, h.index_eq] at hmore hlast
  refine ⟨hprov.trans h.provider_eq, by rw [hidx, h.index_eq], hmore, ?_, fun _ => hval, ?_⟩
  · intro he
    exact hlast (by omega)
  · intro j u hj hu
    rw [ha, hcf]
    rcases Nat.lt_or_eq_of_le (Nat.lt_succ_iff.mp hj) with hlt | heq
    · rw [lookup_mapSet_ne _ _ _ _ (fields_getD_ne provider j i hlt hi)]
      exact h.recorded j u hlt hu
    · subst heq
      rw [ht] at hu
      injection hu with hu
      subst hu
      exact lookup_mapSet_self _ _ _

theorem afterSubmissions_all (inputUpdate : InputUpdate) (provider : String)
    (ts : List textinputModel) (m : setupModel)
    (hv : ∀ t ∈ ts, TrimSpace t.value ≠ "")
    (hlen : ts.length = (getFieldsForProvider provider).length)
    (h0 : AfterSubmissions provider ts 0 m) :
    ∀ i, i ≤ ts.length →
      AfterSubmissions provider ts i (submitAll inputUpdate m (ts.take i)) := by
  intro i
  induction i with
  | zero =>
    intro _
    simpa [submitAll] using h0
  | succ i ih =>
    intro hi
    have hlt : i < ts.length := by omega
    have ht : ts[i]? = some ts[i] := List.getElem?_eq_getElem hlt
    rw [List.take_succ, ht, Option.toList, submitAll_append]
    simp only [submitAll]
    exact afterSubmissions_step inputUpdate provider ts i _ ts[i] (ih (by omega))
      (by omega) ht (hv _ (List.getElem_mem hlt))

theorem afterSubmissions_zero (subs : List (String × String)) (m : setupModel) (c : String)
    (ts : List textinputModel) (hinv : WizardInv subs m)
    (hs : m.step = .stepProviderSelection) (hc : c = "1" ∨ c = "2") :
    AfterSubmissions (providerOfKey c) ts 0 (m.chooseProvider (providerOfKey c)) := by
  have hidx := hinv.index_zero hs
  refine ⟨rfl, hidx, fun _ => ⟨rfl, rfl⟩, ?_, ?_, ?_⟩
  · intro h
    rcases hc with rfl | rfl <;> simp [providerOfKey, getFieldsForProvider] at h
  · intro h
    omega
  · intro j t hj
    omega

theorem update_choose (inputUpdate : InputUpdate) (m : setupModel) (c : String)
    (hs : m.step = .stepProviderSelection) (hc : c = "1" ∨ c = "2") :
    (setupModel.Update inputUpdate m (.key c)).1 = m.chooseProvider (providerOfKey c) := by
  rcases hc with rfl | rfl
  · simp [setupModel.Update, hs, providerOfKey]
  · simp [setupModel.Update, hs, providerOfKey]

/-- C14 (counterexample): after provider "1", the value " " (one space) is not empty,
yet submitting it records nothing and the wizard stays in `stepInputCredential` instead
of moving to `stepConfirm` on this first and last submission. -/
theorem C14_blank_value_counterexample :
    (holding " ").value ≠ "" ∧
    (getFieldsForProvider (providerOfKey "1")).length = 1 ∧
    (submitAll appendInput (setupModel.Update appendInput initialSetupModel (.key "1")).1
      [holding " "]).step = .stepInputCredential ∧
    (submitAll appendInput (setupModel.Update appendInput initialSetupModel (.key "1")).1
      [holding " "]).answers = [] ∧
    (feed (setupModel.Update appendInput) initialSetupModel
      [.key "1", .key " ", .key "enter"]).input.value = " " ∧
    (feed (setupModel.Update appendInput) initialSetupModel
      [.key "1", .key " ", .key "enter"]).step ≠ .stepConfirm ∧
    (feed (setupModel.Update appendInput) initialSetupModel
      [.key "1", .key " ", .key "enter"]).answers = [] := by
  refine ⟨by decide, by decide, by decide, by decide, by decide, by decide, by decide⟩

/-- C14 (amended): from the provider selection screen after any sequence of messages
applied to the initial wizard, hence from any such screen it can reach, after choosing
a provider with required fields f1..fk (k = 1, "OpenAI API Key", for "1"; k = 4, "Azure
Endpoint", "Azure Deployment ID", "Azure API Key", "Azure API Version", for "2"),
submitting in turn k values v1..vk that are not blank (not empty after whitespace
trimming) records vi under fi in that order, clears the buffer after each, stays in
`stepInputCredential` at field i+1 after each of the first k-1 submissions, and moves to
`stepConfirm` exactly on the k-th. -/
theorem C14_submissions_fill_fields_in_order (inputUpdate : InputUpdate) (pre : List Msg)
    (c : String) (ts : List textinputModel)
    (hs : (feed (setupModel.Update inputUpdate) initialSetupModel pre).step =
      .stepProviderSelection)
    (hc : c = "1" ∨ c = "2")
    (hlen : ts.length = (getFieldsForProvider (providerOfKey c)).length)
    (hv : ∀ t ∈ ts, TrimSpace t.value ≠ "") :
    getFieldsForProvider (providerOfKey "1") = ["OpenAI API Key"] ∧
    getFieldsForProvider (providerOfKey "2") =
      ["Azure Endpoint", "Azure Deployment ID", "Azure API Key", "Azure API Version"] ∧
    ∀ i, i ≤ ts.length →
      AfterSubmissions (providerOfKey c) ts i
        (submitAll inputUpdate
          (setupModel.Update inputUpdate
            (feed (setupModel.Update inputUpdate) initialSetupModel pre) (.key c)).1
          (ts.take i)) := by
  refine ⟨by decide, by decide, ?_⟩
  rw [update_choose inputUpdate _ c hs hc]
  exact afterSubmissions_all inputUpdate (providerOfKey c) ts _ hv hlen
    (afterSubmissions_zero _ _ c ts (wizard_final inputUpdate pre) hs hc)

/-- C14 (amended) at a concrete input: provider "2" and four values. -/
theorem C14_submissions_fill_fields_in_order_witness :
    (feed (setupModel.Update appendInput) initialSetupModel []).step =
      .stepProviderSelection ∧
    azureValues.length = (getFieldsForProvider (providerOfKey "2")).length ∧
    (∀ t ∈ azureValues, TrimSpace t.value ≠ "") ∧
    AfterSubmissions (providerOfKey "2") azureValues 4
      (submitAll appendInput
        (setupModel.Update appendInput
          (feed (setupModel.Update appendInput) initialSetupModel []) (.key "2")).1
        (azureValues.take 4)) ∧
    (submitAll appendInput
        (setupModel.Update appendInput
          (feed (setupModel.Update appendInput) initialSetupModel []) (.key "2")).1
        (azureValues.take 4)).step = .stepConfirm :=
  ⟨by decide, by decide, by decide,
    (C14_submissions_fill_fields_in_order appendInput [] "2" azureValues (by decide)
      (Or.inr rfl) (by decide) (by decide)).2.2 4 (by decide),
    by decide⟩

/-! ### The confirmation screen -/

theorem toBytes_ascii (l : List Char) (h : ∀ c ∈ l, c.toNat < 128) :
    l.flatMap utf8Bytes = l.map Char.toNat := by
  induction l with
  | nil => rfl
  | cons c rest ih =>
    have hc : c.toNat < 128 := h c (by simp)
    have hr := ih (fun d hd => h d (by simp [hd]))
    simp only [List.flatMap_cons, List.map_cons, hr]
    simp [utf8Bytes, hc]

theorem repeat_star (n : Nat) :
    Repeat (toBytes "*") (n : Int) = some (List.replicate n 42) := by
  have h0 : ¬ ((n : Int) < 0) := by omega
  have hb : toBytes "*" = [42] := by decide
  simp only [Repeat, h0, if_false, Int.toNat_ofNat, hb]
  congr 1
  induction n with
  | zero => rfl
  | succ n ih => simp [List.replicate_succ, ih]

/-- The line of a masked answer of at least four bytes. -/
theorem confirmLine_masked (ToLower : String → String) (field value : String)
    (hm : isMasked ToLower field = true) (h4 : 4 ≤ (toBytes value).length) :
    confirmLine ToLower field value =
      some (toBytes field ++ toBytes ": " ++
        ((toBytes value).take 4 ++ List.replicate ((toBytes value).length - 4) 42) ++
        toBytes "\n") := by
  have hcast : ((toBytes value).length : Int) - 4 = (((toBytes value).length - 4 : Nat) : Int) := by
    omega
  simp only [confirmLine, hm, if_true, sliceTo, h4, hcast, repeat_star]
  simp

/-- The line of a masked answer of fewer than four bytes is a panic. -/
theorem confirmLine_short (ToLower : String → String) (field value : String)
    (hm : isMasked ToLower field = true) (h4 : (toBytes value).length < 4) :
    confirmLine ToLower field value = none := by
  have h : ¬ (4 ≤ (toBytes value).length) := by omega
  simp [confirmLine, hm, sliceTo, h]

/-- C11 (the code at the failing input): provider "1" and the key `abc` bring the wizard
to the confirmation screen with the answer `abc` recorded under "OpenAI API Key"; the
label is masked, the value has three bytes, the slice `value[:4]` is out of range, and
`View` panics instead of producing text. -/
theorem C11_short_secret_panics :
    shortKeyModel.step = .stepConfirm ∧
    shortKeyModel.answers = [("OpenAI API Key", "abc")] ∧
    isMasked asciiToLower "OpenAI API Key" = true ∧
    (toBytes "abc").length = 3 ∧
    sliceTo (toBytes "abc") 4 = none ∧
    Repeat (toBytes "*") (((toBytes "abc").length : Int) - 4) = none ∧
    confirmLine asciiToLower "OpenAI API Key" "abc" = none ∧
    setupModel.View demoViewEnv shortKeyModel = none := by
  refine ⟨by decide, by decide, by decide, by decide, by decide, by decide, by decide,
    by decide⟩

/-- C12 (counterexample): the value `abcdé` has five characters and six bytes; under
"Azure API Key" it is displayed as `abcd**`, its first four characters followed by two
mask characters, not by one, and the masked text has six characters. -/
theorem C12_non_ascii_counterexample :
    isMasked asciiToLower "Azure API Key" = true ∧
    ("abcdé" : String).length = 5 ∧
    confirmLine asciiToLower "Azure API Key" "abcdé" =
      some (toBytes "Azure API Key: abcd**\n") ∧
    confirmLine asciiToLower "Azure API Key" "abcdé" ≠
      some (toBytes "Azure API Key: abcd*\n") ∧
    ("abcd**" : String).length ≠ ("abcdé" : String).length := by
  refine ⟨by decide, by decide, by decide, by decide, by decide⟩

/-- C12 (amended): on the confirmation screen `View` writes one line per recorded answer;
an answer is masked exactly when its lower-cased label contains "key" or "token"; a
masked value of at least four bytes is shown as its first four bytes followed by one '*'
per remaining byte, so that the masked text has the byte length of the value; for a
value made of ASCII characters these are its first four characters followed by one '*'
per remaining character, and "Azure API Key" with `abcdefgh` gives `abcd****`; a value
that is not masked is shown verbatim. -/
theorem C12_masking_by_bytes (ToLower : String → String) (field value : String) :
    (isMasked ToLower field = true ↔
      (Contains (ToLower field) "key" = true ∨ Contains (ToLower field) "token" = true)) ∧
    (isMasked ToLower field = false →
      confirmLine ToLower field value =
        some (toBytes field ++ toBytes ": " ++ toBytes value ++ toBytes "\n")) ∧
    (isMasked ToLower field = true → 4 ≤ (toBytes value).length →
      confirmLine ToLower field value =
        some (toBytes field ++ toBytes ": " ++
          ((toBytes value).take 4 ++ List.replicate ((toBytes value).length - 4) 42) ++
          toBytes "\n") ∧
      ((toBytes value).take 4 ++ List.replicate ((toBytes value).length - 4) 42).length =
        (toBytes value).length) ∧
    ((∀ c ∈ value.data, c.toNat < 128) → 4 ≤ value.length →
      (toBytes value).length = value.length ∧
      (toBytes value).take 4 ++ List.replicate ((toBytes value).length - 4) 42 =
        toBytes ⟨value.data.take 4 ++ List.replicate (value.length - 4) '*'⟩) ∧
    (∀ (env : ViewEnv) (m : setupModel), m.step = .stepConfirm →
      setupModel.View env m =
        (confirmLines env.ToLower (env.rangeOrder m.answers)).map (fun lines =>
          toBytes "Please confirm your configuration:\n\n" ++ toBytes "AI Provider: " ++
            toBytes (env.Title m.provider) ++ toBytes "\n" ++ lines ++
            toBytes "\nConfirm? (Y/n): ")) ∧
    (∀ (f v : String) (rest : StringMap), confirmLines ToLower ((f, v) :: rest) =
      (confirmLine ToLower f v).bind (fun line =>
        (confirmLines ToLower rest).map (fun lines => line ++ lines))) ∧
    confirmLine asciiToLower "Azure API Key" "abcdefgh" =
      some (toBytes "Azure API Key: abcd****\n") ∧
    ["OpenAI API Key", "Azure Endpoint", "Azure Deployment ID", "Azure API Key",
        "Azure API Version"].map (isMasked asciiToLower) =
      [true, false, false, true, false] := by
  refine ⟨?_, ?_, ?_, ?_, ?_, ?_, by decide, by decide⟩
  · simp [isMasked]
  · intro hm
    simp [confirmLine, hm]
  · intro hm h4
    refine ⟨confirmLine_masked ToLower field value hm h4, ?_⟩
    simp only [List.length_append, List.length_take, List.length_replicate]
    omega
  · intro hascii h4
    have hb : toBytes value = value.data.map Char.toNat := toBytes_ascii value.data hascii
    have hlen : (toBytes value).length = value.length := by
      rw [hb, List.length_map]
      rfl
    refine ⟨hlen, ?_⟩
    have hascii2 : ∀ c ∈ value.data.take 4 ++ List.replicate (value.length - 4) '*',
        c.toNat < 128 := by
      intro c hc
      rcases List.mem_append.mp hc with h | h
      · exact hascii c (List.mem_of_mem_take h)
      · rw [(List.mem_replicate.mp h).2]
        decide
    show _ = (value.data.take 4 ++ List.replicate (value.length - 4) '*').flatMap utf8Bytes
    rw [toBytes_ascii _ hascii2, hlen, hb, List.map_append, List.map_take, List.map_replicate]
    rfl
  · intro env m hs
    simp only [setupModel.View, hs]
    cases confirmLines env.ToLower (env.rangeOrder m.answers) <;> rfl
  · intro f v rest
    simp only [confirmLines]
    cases confirmLine ToLower f v with
    | none => rfl
    | some line => cases confirmLines ToLower rest <;> rfl

/-- C12 (amended) at a concrete input: "Azure API Key" with the value `abcdefgh`. -/
theorem C12_masking_by_bytes_witness :
    isMasked asciiToLower "Azure API Key" = true ∧
    4 ≤ (toBytes "abcdefgh").length ∧
    confirmLine asciiToLower "Azure API Key" "abcdefgh" =
      some (toBytes "Azure API Key" ++ toBytes ": " ++
        ((toBytes "abcdefgh").take 4 ++
          List.replicate ((toBytes "abcdefgh").length - 4) 42) ++ toBytes "\n") ∧
    (toBytes "abcdefgh").take 4 ++ List.replicate ((toBytes "abcdefgh").length - 4) 42 =
      toBytes "abcd****" :=
  ⟨by decide, by decide,
    ((C12_masking_by_bytes asciiToLower "Azure API Key" "abcdefgh").2.2.1 (by decide)
      (by decide)).1,
    by decide⟩

end Giq
